import Mathlib

/-!
# LFI interception stubs (`inter.h`)

A shallow embedding of the two stub generators of `inter.h`,
`GENERATE_STUBv2` (x86) and `GENERATE_STUBv2_x64`, and of the explicit
push/pop instructions of the x64 stub.

The stub body is C code that calls three functions defined elsewhere
(`determine_action`, `dlsym`, `printf`).  What those calls return, and which
intercepted functions they call in turn on the same thread, is the
environment of a dispatch; it is given as data (`Calls`).  Every step of the
stub appends an `Event` to a trace, stamped with the value `no_intercept`
has at that moment.

Two conventions. The `errno` field records the stores the stubs make; what
the called functions do to `errno` is outside the stub body. A jump ends the
stub body, and the calls that follow in a `Calls` sequence are the calls the
thread makes afterwards; a sequence is not cut short after a jump to the
null address, so what is proved of every sequence holds of the shorter
ones a crash would leave.
-/

namespace LFI

/-! ## Data model -/

/-- The generator a stub was produced by: `GENERATE_STUBv2` or `GENERATE_STUBv2_x64`. -/
inductive Arch where
  | x86
  | x64
deriving DecidableEq, Repr

/-- The four `__out` parameters of `determine_action`. -/
structure Decision where
  call_original : Int
  return_error : Int
  return_code : Int
  return_errno : Int
deriving DecidableEq, Repr

/-- The locals of a stub body (`inter.h` lines 122-124 and 203-211). -/
structure Frame where
  call_original : Int
  return_error : Int
  return_code : Int
  return_errno : Int
  initial_no_intercept : Int
deriving DecidableEq, Repr

/-- What a stub does at one point of its body. `enter` and `fall_off` mark
the first and the last line of the body; the others are the calls, the
`errno` store and the control transfers written in the stub body. -/
inductive Action where
  | enter
  | determine_action
  | dlsym (result : Nat)
  | printf
  | set_errno (v : Int)
  | ret (code : Int)
  | call (target : Nat)
  | jmp (target : Nat)
  | fall_off
deriving DecidableEq, Repr

/-- One step of the stub named `fn`, with the value of `no_intercept` at that step. -/
structure Event where
  fn : String
  guard : Int
  act : Action
deriving DecidableEq, Repr

/-- The variables a stub reads and writes: the thread-local `no_intercept`
(line 89), the global `init_done` of `STUB_VAR_DECL` (line 290), the
`static original_fn_ptr` of each stub (lines 125, 205; `0` is the null
pointer, the value a static starts with), and `errno`. -/
structure State where
  no_intercept : Int
  init_done : Int
  original_fn_ptr : String → Nat
  errno : Int

/-- The state reached and the events produced on the way. -/
structure Step where
  state : State
  events : List Event

/-- A sequence of calls to intercepted functions made one after the other on
one thread. For each call: the name of the stub, what `determine_action`
writes to its out-parameters and the intercepted calls it makes while it
runs, what `dlsym` returns and the intercepted calls it makes, the
intercepted calls `printf` makes, and the calls that follow. -/
inductive Calls where
  | done : Calls
  | call (fn : String) (d : Decision) (inDA : Calls) (r : Nat)
      (inDlsym : Calls) (inPrintf : Calls) (next : Calls) : Calls

/-! ## The stub body -/

/-- The locals after the `defaults` block (lines 128-133, 229-236). -/
def defaults (s : State) : Frame :=
  { call_original := 1, return_error := 0, return_code := 0, return_errno := 0,
    initial_no_intercept := s.no_intercept }

/-- The condition of the `if` at line 134 (x86) and line 237 (x64). -/
def gate : Arch → State → Bool
  | .x86, s => s.no_intercept == 0 && s.init_done != 0
  | .x64, s => s.no_intercept == 0

/-- The assignment `no_intercept = v`. -/
def State.set_guard (s : State) (v : Int) : State :=
  { s with no_intercept := v }

/-- The out-parameters of `determine_action` stored into the locals. -/
def Frame.store (f : Frame) (d : Decision) : Frame :=
  { f with call_original := d.call_original, return_error := d.return_error,
           return_code := d.return_code, return_errno := d.return_errno }

/-- Lines 128-137 (x86) and 229-240 (x64): the defaults, the saved guard,
and the guarded call of `determine_action`. -/
def decide_phase (a : Arch) (fn : String) (d : Decision) (inDA : State → Step)
    (s : State) : Frame × Step :=
  if gate a s then
    let n := inDA (s.set_guard 1)
    ((defaults s).store d, ⟨n.state, ⟨fn, 1, .determine_action⟩ :: n.events⟩)
  else
    (defaults s, ⟨s, []⟩)

/-- The assignment `original_fn_ptr = p` inside the stub named `fn`. -/
def State.set_ptr (s : State) (fn : String) (p : Nat) : State :=
  { s with original_fn_ptr := fun g => if g = fn then p else s.original_fn_ptr g }

/-- Lines 139-143 (x86) and 243-247 (x64): the lazy lookup of the real function. -/
def resolve_phase (fn : String) (r : Nat) (inDlsym inPrintf : State → Step)
    (s : State) : Step :=
  if s.original_fn_ptr fn = 0 then
    let n := inDlsym s
    let s1 := n.state.set_ptr fn r
    let lookup : List Event := ⟨fn, s.no_intercept, .dlsym r⟩ :: n.events
    if s1.original_fn_ptr fn = 0 then
      let p := inPrintf s1
      ⟨p.state, lookup ++ ⟨fn, s1.no_intercept, .printf⟩ :: p.events⟩
    else
      ⟨s1, lookup⟩
  else
    ⟨s, []⟩

/-- Line 145 (x86) and 249 (x64): `no_intercept = initial_no_intercept`. -/
def restore (f : Frame) (s : State) : State :=
  s.set_guard f.initial_no_intercept

/-- The stub up to and including the restore of the guard, just before the
`if` chain that picks the fail or forward branch. -/
def pre_branch (a : Arch) (fn : String) (d : Decision) (r : Nat)
    (inDA inDlsym inPrintf : State → Step) (s : State) : Frame × Step :=
  let p := decide_phase a fn d inDA s
  let q := resolve_phase fn r inDlsym inPrintf p.2.state
  (p.1, ⟨restore p.1 q.state,
         ⟨fn, s.no_intercept, .enter⟩ :: (p.2.events ++ q.events)⟩)

/-- The branch a stub leaves by. -/
inductive Outcome where
  | call_then_fail (target : Nat) (errno : Int) (code : Int)
  | fail (errno : Int) (code : Int)
  | forward (target : Nat)
  | fall_off
deriving DecidableEq, Repr

/-- The `if` chain of lines 147-181 (x86) and 251-284 (x64). The x86 chain
starts with the branch `if (0 && call_original && return_error)`. -/
def branch : Arch → Frame → Nat → Outcome
  | .x86, f, p =>
    if (0 : Int) ≠ 0 ∧ f.call_original ≠ 0 ∧ f.return_error ≠ 0 then
      .call_then_fail p f.return_errno f.return_code
    else if f.return_error ≠ 0 then .fail f.return_errno f.return_code
    else if f.call_original ≠ 0 then .forward p
    else .fall_off
  | .x64, f, p =>
    if f.return_error ≠ 0 then .fail f.return_errno f.return_code
    else if f.call_original ≠ 0 then .forward p
    else .fall_off

/-- The statements of the chosen branch. -/
def finish (fn : String) (o : Outcome) (s : State) : Step :=
  match o with
  | .call_then_fail t e c =>
    ⟨{ s with errno := e },
      [⟨fn, s.no_intercept, .call t⟩, ⟨fn, s.no_intercept, .set_errno e⟩,
       ⟨fn, s.no_intercept, .ret c⟩]⟩
  | .fail e c =>
    ⟨{ s with errno := e },
      [⟨fn, s.no_intercept, .set_errno e⟩, ⟨fn, s.no_intercept, .ret c⟩]⟩
  | .forward t => ⟨s, [⟨fn, s.no_intercept, .jmp t⟩]⟩
  | .fall_off => ⟨s, [⟨fn, s.no_intercept, .fall_off⟩]⟩

/-- The branch the stub named `fn` leaves by. -/
def outcome (a : Arch) (fn : String) (d : Decision) (r : Nat)
    (inDA inDlsym inPrintf : State → Step) (s : State) : Outcome :=
  let p := pre_branch a fn d r inDA inDlsym inPrintf s
  branch a p.1 (p.2.state.original_fn_ptr fn)

/-- One dispatch: the whole body of the stub named `fn`. -/
def stub (a : Arch) (fn : String) (d : Decision) (r : Nat)
    (inDA inDlsym inPrintf : State → Step) (s : State) : Step :=
  let p := pre_branch a fn d r inDA inDlsym inPrintf s
  let e := finish fn (branch a p.1 (p.2.state.original_fn_ptr fn)) p.2.state
  ⟨e.state, p.2.events ++ e.events⟩

/-- A sequence of dispatches on one thread, nested dispatches included. -/
def run (a : Arch) : Calls → State → Step
  | .done, s => ⟨s, []⟩
  | .call fn d inDA r inDlsym inPrintf next, s =>
    let here := stub a fn d r (run a inDA) (run a inDlsym) (run a inPrintf) s
    let rest := run a next here.state
    ⟨rest.state, here.events ++ rest.events⟩

/-- The state a process starts a thread in: guard clear, no address resolved. -/
def State.start (init_done : Int) : State :=
  { no_intercept := 0, init_done := init_done, original_fn_ptr := fun _ => 0, errno := 0 }

/-- A single call with nothing nested in it. -/
def Calls.single (fn : String) (d : Decision) (r : Nat) : Calls :=
  .call fn d .done r .done .done .done

/-- Every lookup of `fn` in the calls, nested ones included, returns `v`:
`dlsym` gives the same address for that name each time it is asked. -/
def Calls.returns (fn : String) (v : Nat) : Calls → Bool
  | .done => true
  | .call g _ inDA r inDlsym inPrintf next =>
    (g != fn || r == v) && returns fn v inDA && returns fn v inDlsym &&
      returns fn v inPrintf && returns fn v next

/-! ## The explicit instructions of the x64 stub -/

/-- The general-purpose registers of x64 other than the stack pointer. -/
inductive Reg where
  | rax | rbx | rcx | rdx | rsi | rdi | rbp
  | r8 | r9 | r10 | r11 | r12 | r13 | r14 | r15
deriving DecidableEq, Repr

/-- The registers, the stack pointer, and the memory as 8-byte words by address. -/
structure Machine where
  reg : Reg → Nat
  rsp : Nat
  mem : Nat → Nat

/-- The instructions written as `__asm__` statements in `GENERATE_STUBv2_x64`
that touch the stack. -/
inductive Instr where
  | push (r : Reg)
  | pop (r : Reg)
  | add_rsp (n : Nat)
  | leave
deriving DecidableEq, Repr

/-- The number of values of a 64-bit register, `2 ^ 64`. -/
def word : Nat := 18446744073709551616

/-- Arithmetic on a 64-bit register wraps around. -/
@[irreducible] def wrap (n : Nat) : Nat := n % word

/-- One instruction. `push` moves the stack pointer down 8 bytes and stores
the register there; `pop` loads the register from the stack pointer and
moves it up 8 bytes; `leave` is `mov %rbp, %rsp` followed by `pop %rbp`. -/
def exec : Instr → Machine → Machine
  | .push r, m =>
    { m with rsp := wrap (m.rsp + (word - 8)),
             mem := fun a => if a = wrap (m.rsp + (word - 8)) then m.reg r else m.mem a }
  | .pop r, m =>
    { m with reg := fun x => if x = r then m.mem m.rsp else m.reg x,
             rsp := wrap (m.rsp + 8) }
  | .add_rsp n, m => { m with rsp := wrap (m.rsp + n) }
  | .leave, m =>
    { m with reg := fun x => if x = .rbp then m.mem (m.reg .rbp) else m.reg x,
             rsp := wrap (m.reg .rbp + 8) }

/-- A sequence of instructions, first to last. -/
def exec_all : List Instr → Machine → Machine
  | [], m => m
  | i :: is, m => exec_all is (exec i m)

/-- Lines 213-226: `save non-volatiles` and `save function arguments`. -/
def save_registers : List Instr :=
  [.push .r15, .push .r14, .push .r13, .push .r12, .push .rdi, .push .rsi, .push .rbx,
   .push .rcx, .push .rdx, .push .r8, .push .r9]

/-- Lines 269-281: `restore function arguments` and `restore non-volatiles`. -/
def restore_registers : List Instr :=
  [.pop .r9, .pop .r8, .pop .rdx, .pop .rcx,
   .pop .rbx, .pop .rsi, .pop .rdi, .pop .r12, .pop .r13, .pop .r14, .pop .r15]

/-- Lines 269-282: the forward branch up to the `jmp`. -/
def forward_exit : List Instr := restore_registers ++ [.leave]

/-- Line 264: the stack instruction of the fail branch. -/
def fail_exit : List Instr := [.add_rsp 0x58]

/-- The registers pushed by `save_registers`, in the order they are pushed. -/
def saved : List Reg :=
  [.r15, .r14, .r13, .r12, .rdi, .rsi, .rbx, .rcx, .rdx, .r8, .r9]

/-- The code `x` run between a push of `r` and the matching pop. -/
def bracket (r : Reg) (x : Machine → Machine) (m : Machine) : Machine :=
  exec (.pop r) (x (exec (.push r) m))

/-- The code `x` run between the pushes of `rs` and their pops in reverse order. -/
def brackets : List Reg → (Machine → Machine) → Machine → Machine
  | [], x => x
  | r :: rs, x => bracket r (brackets rs x)

/-- The code `x`, started in `m`, leaves the stack pointer and the `n` words
at and above it unchanged. -/
def Preserves (n : Nat) (x : Machine → Machine) (m : Machine) : Prop :=
  (x m).rsp = m.rsp ∧ ∀ k < n, (x m).mem (wrap (m.rsp + 8 * k)) = m.mem (wrap (m.rsp + 8 * k))

/-! ## Reading a trace -/

/-- The steps a dispatch makes when it does not decide: entering, looking the
real function up, reporting a failed lookup, jumping to the real function. -/
def Action.passes : Action → Bool
  | .enter => true
  | .dlsym _ => true
  | .printf => true
  | .jmp _ => true
  | _ => false

/-- The number of calls of `determine_action` in a trace. -/
def decisions (t : List Event) : Nat :=
  t.countP (fun e => decide (e.act = .determine_action))

/-- The number of stub entries in a trace. -/
def entries (t : List Event) : Nat :=
  t.countP (fun e => decide (e.act = .enter))

/-- The number of jumps to a real function in a trace. -/
def forwards (t : List Event) : Nat :=
  t.countP (fun e => match e.act with | .jmp _ => true | _ => false)

/-- Every event of the trace happens at guard value `g` and is a step of a
dispatch that does not decide. -/
def Suppressed (g : Int) (t : List Event) : Prop :=
  ∀ e ∈ t, e.guard = g ∧ e.act.passes = true

/-- A nested computation that, started with the guard set, keeps it set, does
not decide, does not write `errno`, and forwards every call it enters. -/
def Transparent (n : State → Step) : Prop :=
  ∀ s, s.no_intercept ≠ 0 →
    (n s).state.no_intercept = s.no_intercept ∧ (n s).state.errno = s.errno ∧
    Suppressed s.no_intercept (n s).events ∧
    entries (n s).events = forwards (n s).events

/-! ## Predicates on nested computations -/

/-- A nested computation that, started before `init_done` is set, leaves it
unset, does not decide and forwards every call it enters. -/
def Dormant (n : State → Step) : Prop :=
  ∀ s, s.init_done = 0 →
    (n s).state.init_done = 0 ∧ decisions (n s).events = 0 ∧
    entries (n s).events = forwards (n s).events

/-- A nested computation that leaves a resolved address of `fn` in place and
does not look `fn` up again. -/
def Keeps (fn : String) (n : State → Step) : Prop :=
  ∀ s, s.original_fn_ptr fn ≠ 0 →
    (n s).state.original_fn_ptr fn = s.original_fn_ptr fn ∧
    ∀ e ∈ (n s).events, e.fn = fn → ∀ r, e.act ≠ .dlsym r

/-- The address `p` is the earlier address `p0` or the result of a lookup of
`fn` in the trace `t`. -/
def Looked (fn : String) (p0 p : Nat) (t : List Event) : Prop :=
  p = p0 ∨ ∃ e ∈ t, e.fn = fn ∧ e.act = .dlsym p

/-- A nested computation after which the cached address of `fn` is the one
before it or the result of a lookup of `fn` made in it. -/
def Traced (fn : String) (n : State → Step) : Prop :=
  ∀ s, Looked fn (s.original_fn_ptr fn) ((n s).state.original_fn_ptr fn) (n s).events

/-- Every jump in the trace goes to an address that an earlier lookup of the
same name returned. -/
def jumps_resolved (t : List Event) : Prop :=
  ∀ pre e post p, t = pre ++ e :: post → e.act = .jmp p →
    ∃ x ∈ pre, x.fn = e.fn ∧ x.act = .dlsym p

/-- Every non-null cached address is the result of a lookup in the trace. -/
def Resolved (t : List Event) (s : State) : Prop :=
  ∀ fn, s.original_fn_ptr fn ≠ 0 →
    ∃ x ∈ t, x.fn = fn ∧ x.act = .dlsym (s.original_fn_ptr fn)

/-- A nested computation whose jumps all follow a lookup. -/
def Sound (n : State → Step) : Prop :=
  ∀ t s, Resolved t s → jumps_resolved t → jumps_resolved (t ++ (n s).events)

/-- A nested computation in which every lookup of `fn` returns `v`. -/
def Agreeing (fn : String) (v : Nat) (n : State → Step) : Prop :=
  ∀ s, ∀ e ∈ (n s).events, e.fn = fn → ∀ r, e.act = .dlsym r → r = v

/-! ## Basic facts about the phases -/

@[simp] theorem set_guard_no_intercept (s : State) (v : Int) :
    (s.set_guard v).no_intercept = v := rfl

@[simp] theorem set_guard_init_done (s : State) (v : Int) :
    (s.set_guard v).init_done = s.init_done := rfl

@[simp] theorem set_guard_errno (s : State) (v : Int) :
    (s.set_guard v).errno = s.errno := rfl

@[simp] theorem set_guard_ptr (s : State) (v : Int) :
    (s.set_guard v).original_fn_ptr = s.original_fn_ptr := rfl

@[simp] theorem set_ptr_no_intercept (s : State) (fn : String) (p : Nat) :
    (s.set_ptr fn p).no_intercept = s.no_intercept := rfl

@[simp] theorem set_ptr_init_done (s : State) (fn : String) (p : Nat) :
    (s.set_ptr fn p).init_done = s.init_done := rfl

@[simp] theorem set_ptr_errno (s : State) (fn : String) (p : Nat) :
    (s.set_ptr fn p).errno = s.errno := rfl

@[simp] theorem set_ptr_same (s : State) (fn : String) (p : Nat) :
    (s.set_ptr fn p).original_fn_ptr fn = p := by
  simp [State.set_ptr]

theorem set_ptr_other (s : State) (fn g : String) (p : Nat) (h : g ≠ fn) :
    (s.set_ptr fn p).original_fn_ptr g = s.original_fn_ptr g := by
  simp [State.set_ptr, h]

@[simp] theorem restore_no_intercept (f : Frame) (s : State) :
    (restore f s).no_intercept = f.initial_no_intercept := rfl

@[simp] theorem restore_init_done (f : Frame) (s : State) :
    (restore f s).init_done = s.init_done := rfl

@[simp] theorem restore_errno (f : Frame) (s : State) :
    (restore f s).errno = s.errno := rfl

@[simp] theorem restore_ptr (f : Frame) (s : State) :
    (restore f s).original_fn_ptr = s.original_fn_ptr := rfl

theorem gate_of_guard (a : Arch) (s : State) (h : s.no_intercept ≠ 0) : gate a s = false := by
  cases a <;> simp [gate, h]

theorem gate_x86_iff (s : State) :
    gate .x86 s = true ↔ s.no_intercept = 0 ∧ s.init_done ≠ 0 := by
  simp [gate]

theorem gate_x64_iff (s : State) : gate .x64 s = true ↔ s.no_intercept = 0 := by
  simp [gate]

theorem gate_guard (a : Arch) (s : State) (h : gate a s = true) : s.no_intercept = 0 := by
  cases a <;> simp [gate] at h
  · exact h.1
  · exact h

theorem decide_phase_closed (a : Arch) (fn : String) (d : Decision) (inDA : State → Step)
    (s : State) (h : gate a s = false) :
    decide_phase a fn d inDA s = (defaults s, ⟨s, []⟩) := by
  simp [decide_phase, h]

theorem decide_phase_open (a : Arch) (fn : String) (d : Decision) (inDA : State → Step)
    (s : State) (h : gate a s = true) :
    decide_phase a fn d inDA s
      = ((defaults s).store d,
         ⟨(inDA (s.set_guard 1)).state,
          ⟨fn, 1, .determine_action⟩ :: (inDA (s.set_guard 1)).events⟩) := by
  simp [decide_phase, h]

theorem decide_phase_initial (a : Arch) (fn : String) (d : Decision) (inDA : State → Step)
    (s : State) : (decide_phase a fn d inDA s).1.initial_no_intercept = s.no_intercept := by
  unfold decide_phase
  split <;> simp [defaults, Frame.store]

theorem pre_branch_guard (a : Arch) (fn : String) (d : Decision) (r : Nat)
    (inDA inDlsym inPrintf : State → Step) (s : State) :
    (pre_branch a fn d r inDA inDlsym inPrintf s).2.state.no_intercept = s.no_intercept := by
  simp [pre_branch, restore, decide_phase_initial]

theorem finish_guard (fn : String) (o : Outcome) (s : State) :
    (finish fn o s).state.no_intercept = s.no_intercept ∧
    (finish fn o s).state.init_done = s.init_done ∧
    (finish fn o s).state.original_fn_ptr = s.original_fn_ptr ∧
    ∀ e ∈ (finish fn o s).events, e.guard = s.no_intercept ∧ e.fn = fn := by
  cases o <;> simp [finish]

theorem stub_guard (a : Arch) (fn : String) (d : Decision) (r : Nat)
    (inDA inDlsym inPrintf : State → Step) (s : State) :
    (stub a fn d r inDA inDlsym inPrintf s).state.no_intercept = s.no_intercept := by
  simp [stub, (finish_guard _ _ _).1, pre_branch_guard]

theorem run_guard (a : Arch) (c : Calls) :
    ∀ s, (run a c s).state.no_intercept = s.no_intercept := by
  induction c with
  | done => intro s; rfl
  | call fn d inDA r inDlsym inPrintf next _ _ _ ih =>
    intro s
    simp only [run]
    rw [ih, stub_guard]

/-! ## Dispatches made while the guard is set -/

theorem Suppressed.nil (g : Int) : Suppressed g [] := by
  intro e he; cases he

theorem Suppressed.append {g : Int} {t u : List Event} (ht : Suppressed g t)
    (hu : Suppressed g u) : Suppressed g (t ++ u) := by
  intro e he
  rcases List.mem_append.mp he with h | h
  · exact ht e h
  · exact hu e h

theorem Suppressed.cons {g : Int} {e : Event} {t : List Event} (hg : e.guard = g)
    (hp : e.act.passes = true) (ht : Suppressed g t) : Suppressed g (e :: t) := by
  intro x hx
  rcases List.mem_cons.mp hx with h | h
  · subst h; exact ⟨hg, hp⟩
  · exact ht x h

theorem entries_append (t u : List Event) : entries (t ++ u) = entries t + entries u := by
  simp [entries]

theorem forwards_append (t u : List Event) : forwards (t ++ u) = forwards t + forwards u := by
  simp [forwards]

theorem decisions_append (t u : List Event) :
    decisions (t ++ u) = decisions t + decisions u := by
  simp [decisions]

theorem Suppressed.decisions {g : Int} {t : List Event} (h : Suppressed g t) :
    decisions t = 0 := by
  unfold LFI.decisions
  rw [List.countP_eq_zero]
  intro e he
  have := (h e he).2
  cases hact : e.act <;> simp_all [Action.passes]

/-- The lookup phase when the cache already holds an address. -/
theorem resolve_phase_cached (fn : String) (r : Nat) (inDlsym inPrintf : State → Step)
    (s : State) (h : s.original_fn_ptr fn ≠ 0) :
    resolve_phase fn r inDlsym inPrintf s = ⟨s, []⟩ := by
  simp [resolve_phase, h]

/-- The lookup phase when the cache is null and `dlsym` finds the function. -/
theorem resolve_phase_found (fn : String) (r : Nat) (inDlsym inPrintf : State → Step)
    (s : State) (h : s.original_fn_ptr fn = 0) (hr : r ≠ 0) :
    resolve_phase fn r inDlsym inPrintf s
      = ⟨(inDlsym s).state.set_ptr fn r, ⟨fn, s.no_intercept, .dlsym r⟩ :: (inDlsym s).events⟩ := by
  simp [resolve_phase, h, hr]

/-- The lookup phase when the cache is null and `dlsym` returns null. -/
theorem resolve_phase_missing (fn : String) (inDlsym inPrintf : State → Step)
    (s : State) (h : s.original_fn_ptr fn = 0) :
    resolve_phase fn 0 inDlsym inPrintf s
      = ⟨(inPrintf ((inDlsym s).state.set_ptr fn 0)).state,
         (⟨fn, s.no_intercept, .dlsym 0⟩ :: (inDlsym s).events) ++
           ⟨fn, (inDlsym s).state.no_intercept, .printf⟩ ::
             (inPrintf ((inDlsym s).state.set_ptr fn 0)).events⟩ := by
  simp [resolve_phase, h]

/-- While the guard is set, the lookup phase keeps it set, writes no `errno`,
and adds no stub entry or jump of its own. -/
theorem resolve_phase_transparent (fn : String) (r : Nat) (inDlsym inPrintf : State → Step)
    (hd : Transparent inDlsym) (hp : Transparent inPrintf) (s : State)
    (h : s.no_intercept ≠ 0) :
    (resolve_phase fn r inDlsym inPrintf s).state.no_intercept = s.no_intercept ∧
    (resolve_phase fn r inDlsym inPrintf s).state.errno = s.errno ∧
    Suppressed s.no_intercept (resolve_phase fn r inDlsym inPrintf s).events ∧
    entries (resolve_phase fn r inDlsym inPrintf s).events
      = forwards (resolve_phase fn r inDlsym inPrintf s).events := by
  obtain ⟨d1, d2, d3, d4⟩ := hd s h
  by_cases hc : s.original_fn_ptr fn = 0
  · by_cases hr : r = 0
    · subst hr
      have h1 : ((inDlsym s).state.set_ptr fn 0).no_intercept ≠ 0 := by simpa [d1] using h
      obtain ⟨p1, p2, p3, p4⟩ := hp _ h1
      simp only [set_ptr_no_intercept, set_ptr_errno] at p1 p2 p3
      rw [resolve_phase_missing fn inDlsym inPrintf s hc]
      refine ⟨by rw [p1, d1], by rw [p2, d2], ?_, ?_⟩
      · rw [d1] at p3
        exact Suppressed.append (Suppressed.cons rfl rfl d3) (Suppressed.cons d1 rfl p3)
      · simp only [entries_append, forwards_append]
        simp only [entries, forwards, List.countP_cons] at *
        simp [d4, p4]
    · rw [resolve_phase_found fn r inDlsym inPrintf s hc hr]
      refine ⟨d1, d2, Suppressed.cons rfl rfl d3, ?_⟩
      simp only [entries, forwards, List.countP_cons] at *
      simp [d4]
  · rw [resolve_phase_cached fn r inDlsym inPrintf s hc]
    exact ⟨rfl, rfl, Suppressed.nil _, rfl⟩

theorem branch_defaults (a : Arch) (s : State) (p : Nat) :
    branch a (defaults s) p = .forward p := by
  cases a <;> simp [branch, defaults]

/-- The whole stub when the `if` of line 134 / 237 is not taken. -/
theorem stub_closed (a : Arch) (fn : String) (d : Decision) (r : Nat)
    (inDA inDlsym inPrintf : State → Step) (s : State) (h : gate a s = false) :
    stub a fn d r inDA inDlsym inPrintf s
      = ⟨restore (defaults s) (resolve_phase fn r inDlsym inPrintf s).state,
         ⟨fn, s.no_intercept, .enter⟩ ::
           ((resolve_phase fn r inDlsym inPrintf s).events ++
             [⟨fn, s.no_intercept,
               .jmp ((resolve_phase fn r inDlsym inPrintf s).state.original_fn_ptr fn)⟩])⟩ := by
  simp only [stub, pre_branch, decide_phase_closed a fn d inDA s h, restore_ptr,
    branch_defaults, finish, List.nil_append, restore_no_intercept]
  simp [defaults]

/-- A stub entered with the guard set is transparent when what it calls is. -/
theorem stub_transparent (a : Arch) (fn : String) (d : Decision) (r : Nat)
    (inDA inDlsym inPrintf : State → Step)
    (hd : Transparent inDlsym) (hp : Transparent inPrintf) :
    Transparent (stub a fn d r inDA inDlsym inPrintf) := by
  intro s h
  obtain ⟨_, q2, q3, q4⟩ := resolve_phase_transparent fn r inDlsym inPrintf hd hp s h
  rw [stub_closed a fn d r inDA inDlsym inPrintf s (gate_of_guard a s h)]
  refine ⟨rfl, q2, ?_, ?_⟩
  · exact Suppressed.cons rfl rfl
      (Suppressed.append q3 (Suppressed.cons rfl rfl (Suppressed.nil _)))
  · simp only [entries, forwards, List.countP_cons, List.countP_append] at *
    simp [q4]

theorem run_transparent (a : Arch) (c : Calls) : Transparent (run a c) := by
  induction c with
  | done => intro s _; exact ⟨rfl, rfl, Suppressed.nil _, rfl⟩
  | call fn d inDA r inDlsym inPrintf next _ ihd ihp ihn =>
    intro s h
    obtain ⟨a1, a2, a3, a4⟩ :=
      stub_transparent a fn d r (run a inDA) (run a inDlsym) (run a inPrintf) ihd ihp s h
    have h1 : (stub a fn d r (run a inDA) (run a inDlsym) (run a inPrintf) s).state.no_intercept
        ≠ 0 := by rw [a1]; exact h
    obtain ⟨b1, b2, b3, b4⟩ := ihn _ h1
    simp only [run]
    refine ⟨by rw [b1, a1], by rw [b2, a2], ?_, ?_⟩
    · rw [a1] at b3; exact Suppressed.append a3 b3
    · rw [entries_append, forwards_append, a4, b4]

/-! ## Dispatches that decide -/

/-- The whole stub when the `if` of line 134 / 237 is taken. -/
theorem stub_open (a : Arch) (fn : String) (d : Decision) (r : Nat)
    (inDA inDlsym inPrintf : State → Step) (s : State) (h : gate a s = true) :
    stub a fn d r inDA inDlsym inPrintf s
      = ⟨(finish fn
            (branch a ((defaults s).store d)
              ((resolve_phase fn r inDlsym inPrintf (inDA (s.set_guard 1)).state).state.original_fn_ptr
                fn))
            (restore ((defaults s).store d)
              (resolve_phase fn r inDlsym inPrintf (inDA (s.set_guard 1)).state).state)).state,
         (⟨fn, s.no_intercept, .enter⟩ ::
            ((⟨fn, 1, .determine_action⟩ :: (inDA (s.set_guard 1)).events) ++
              (resolve_phase fn r inDlsym inPrintf (inDA (s.set_guard 1)).state).events)) ++
           (finish fn
            (branch a ((defaults s).store d)
              ((resolve_phase fn r inDlsym inPrintf (inDA (s.set_guard 1)).state).state.original_fn_ptr
                fn))
            (restore ((defaults s).store d)
              (resolve_phase fn r inDlsym inPrintf (inDA (s.set_guard 1)).state).state)).events⟩ := by
  simp [stub, pre_branch, decide_phase_open a fn d inDA s h]

theorem pre_branch_open (a : Arch) (fn : String) (d : Decision) (r : Nat)
    (inDA inDlsym inPrintf : State → Step) (s : State) (h : gate a s = true) :
    pre_branch a fn d r inDA inDlsym inPrintf s
      = ((defaults s).store d,
         ⟨restore ((defaults s).store d)
            (resolve_phase fn r inDlsym inPrintf (inDA (s.set_guard 1)).state).state,
          ⟨fn, s.no_intercept, .enter⟩ ::
            ((⟨fn, 1, .determine_action⟩ :: (inDA (s.set_guard 1)).events) ++
              (resolve_phase fn r inDlsym inPrintf (inDA (s.set_guard 1)).state).events)⟩) := by
  simp [pre_branch, decide_phase_open a fn d inDA s h]

theorem pre_branch_closed (a : Arch) (fn : String) (d : Decision) (r : Nat)
    (inDA inDlsym inPrintf : State → Step) (s : State) (h : gate a s = false) :
    pre_branch a fn d r inDA inDlsym inPrintf s
      = (defaults s,
         ⟨restore (defaults s) (resolve_phase fn r inDlsym inPrintf s).state,
          ⟨fn, s.no_intercept, .enter⟩ :: (resolve_phase fn r inDlsym inPrintf s).events⟩) := by
  simp [pre_branch, decide_phase_closed a fn d inDA s h]

theorem finish_decisions (fn : String) (o : Outcome) (s : State) :
    decisions (finish fn o s).events = 0 := by
  cases o <;> simp [finish, decisions]

theorem finish_errno_forward (fn : String) (t : Nat) (s : State) :
    finish fn (.forward t) s = ⟨s, [⟨fn, s.no_intercept, .jmp t⟩]⟩ := rfl

theorem branch_fail (a : Arch) (f : Frame) (p : Nat) (h : f.return_error ≠ 0) :
    branch a f p = .fail f.return_errno f.return_code := by
  cases a <;> simp [branch, h]

theorem branch_forward (a : Arch) (f : Frame) (p : Nat) (h : f.return_error = 0)
    (hc : f.call_original ≠ 0) : branch a f p = .forward p := by
  cases a <;> simp [branch, h, hc]

theorem branch_fall_off (a : Arch) (f : Frame) (p : Nat) (h : f.return_error = 0)
    (hc : f.call_original = 0) : branch a f p = .fall_off := by
  cases a <;> simp [branch, h, hc]

/-! ## Dispatches before `init_done` is set (x86 stub) -/

theorem resolve_phase_dormant (fn : String) (r : Nat) (inDlsym inPrintf : State → Step)
    (hd : Dormant inDlsym) (hp : Dormant inPrintf) (s : State) (h : s.init_done = 0) :
    (resolve_phase fn r inDlsym inPrintf s).state.init_done = 0 ∧
    decisions (resolve_phase fn r inDlsym inPrintf s).events = 0 ∧
    entries (resolve_phase fn r inDlsym inPrintf s).events
      = forwards (resolve_phase fn r inDlsym inPrintf s).events := by
  obtain ⟨d1, d2, d3⟩ := hd s h
  by_cases hc : s.original_fn_ptr fn = 0
  · by_cases hr : r = 0
    · subst hr
      have h1 : ((inDlsym s).state.set_ptr fn 0).init_done = 0 := by simpa using d1
      obtain ⟨p1, p2, p3⟩ := hp _ h1
      rw [resolve_phase_missing fn inDlsym inPrintf s hc]
      refine ⟨p1, ?_, ?_⟩
      · simp only [decisions, List.countP_cons, List.countP_append] at *
        simp [d2, p2]
      · simp only [entries, forwards, List.countP_cons, List.countP_append] at *
        simp [d3, p3]
    · rw [resolve_phase_found fn r inDlsym inPrintf s hc hr]
      refine ⟨by simpa using d1, ?_, ?_⟩
      · simp only [decisions, List.countP_cons] at *
        simp [d2]
      · simp only [entries, forwards, List.countP_cons] at *
        simp [d3]
  · rw [resolve_phase_cached fn r inDlsym inPrintf s hc]
    exact ⟨h, rfl, rfl⟩

theorem stub_x86_dormant (fn : String) (d : Decision) (r : Nat)
    (inDA inDlsym inPrintf : State → Step) (hd : Dormant inDlsym) (hp : Dormant inPrintf) :
    Dormant (stub .x86 fn d r inDA inDlsym inPrintf) := by
  intro s h
  have hg : gate .x86 s = false := by simp [gate, h]
  obtain ⟨q1, q2, q3⟩ := resolve_phase_dormant fn r inDlsym inPrintf hd hp s h
  rw [stub_closed .x86 fn d r inDA inDlsym inPrintf s hg]
  refine ⟨by simpa using q1, ?_, ?_⟩
  · simp only [decisions, List.countP_cons, List.countP_append] at *
    simp [q2]
  · simp only [entries, forwards, List.countP_cons, List.countP_append] at *
    simp [q3]

/-- Before `init_done` is set no x86 stub calls `determine_action`, whatever
the guard, and every dispatch forwards. -/
theorem run_x86_dormant (c : Calls) : Dormant (run .x86 c) := by
  induction c with
  | done => intro s h; exact ⟨h, rfl, rfl⟩
  | call fn d inDA r inDlsym inPrintf next _ ihd ihp ihn =>
    intro s h
    obtain ⟨a1, a2, a3⟩ :=
      stub_x86_dormant fn d r (run .x86 inDA) (run .x86 inDlsym) (run .x86 inPrintf) ihd ihp s h
    obtain ⟨b1, b2, b3⟩ := ihn _ a1
    simp only [run]
    refine ⟨b1, ?_, ?_⟩
    · rw [decisions_append, a2, b2]
    · rw [entries_append, forwards_append, a3, b3]

/-! ## The cached address -/

theorem Looked.refl (fn : String) (p : Nat) (t : List Event) : Looked fn p p t := Or.inl rfl

theorem Looked.trans {fn : String} {p0 p1 p2 : Nat} {t u w : List Event}
    (h1 : Looked fn p0 p1 t) (h2 : Looked fn p1 p2 u)
    (ht : ∀ e ∈ t, e ∈ w) (hu : ∀ e ∈ u, e ∈ w) : Looked fn p0 p2 w := by
  rcases h2 with rfl | ⟨e, he, h⟩
  · rcases h1 with rfl | ⟨e, he, h⟩
    · exact Or.inl rfl
    · exact Or.inr ⟨e, ht e he, h⟩
  · exact Or.inr ⟨e, hu e he, h⟩

theorem Looked.mono {fn : String} {p0 p : Nat} {t w : List Event}
    (h : Looked fn p0 p t) (ht : ∀ e ∈ t, e ∈ w) : Looked fn p0 p w :=
  Looked.trans h (Looked.refl fn p []) ht (by intro e he; cases he)

theorem stub_events (a : Arch) (fn : String) (d : Decision) (r : Nat)
    (inDA inDlsym inPrintf : State → Step) (s : State) :
    (stub a fn d r inDA inDlsym inPrintf s).events
      = ⟨fn, s.no_intercept, .enter⟩ ::
          ((decide_phase a fn d inDA s).2.events ++
            ((resolve_phase fn r inDlsym inPrintf (decide_phase a fn d inDA s).2.state).events ++
              (finish fn (outcome a fn d r inDA inDlsym inPrintf s)
                (pre_branch a fn d r inDA inDlsym inPrintf s).2.state).events)) := by
  simp [stub, pre_branch, outcome]

theorem finish_ptr (fn : String) (o : Outcome) (s : State) :
    (finish fn o s).state.original_fn_ptr = s.original_fn_ptr := (finish_guard fn o s).2.2.1

theorem stub_ptr (a : Arch) (fn : String) (d : Decision) (r : Nat)
    (inDA inDlsym inPrintf : State → Step) (s : State) :
    (stub a fn d r inDA inDlsym inPrintf s).state.original_fn_ptr
      = (resolve_phase fn r inDlsym inPrintf
          (decide_phase a fn d inDA s).2.state).state.original_fn_ptr := by
  simp [stub, pre_branch, finish_ptr]

theorem pre_branch_ptr (a : Arch) (fn : String) (d : Decision) (r : Nat)
    (inDA inDlsym inPrintf : State → Step) (s : State) :
    (pre_branch a fn d r inDA inDlsym inPrintf s).2.state.original_fn_ptr
      = (resolve_phase fn r inDlsym inPrintf
          (decide_phase a fn d inDA s).2.state).state.original_fn_ptr := by
  simp [pre_branch]

theorem finish_no_dlsym (fn : String) (o : Outcome) (s : State) :
    ∀ e ∈ (finish fn o s).events, ∀ r, e.act ≠ .dlsym r := by
  cases o <;> simp [finish]

theorem decide_phase_keeps (a : Arch) (g fn : String) (d : Decision) (inDA : State → Step)
    (h : Keeps fn inDA) : Keeps fn (fun s => (decide_phase a g d inDA s).2) := by
  intro s hs
  cases hg : gate a s
  · simp [decide_phase_closed a g d inDA s hg]
  · have h1 : (s.set_guard 1).original_fn_ptr fn ≠ 0 := by simpa using hs
    obtain ⟨k1, k2⟩ := h _ h1
    simp only [decide_phase_open a g d inDA s hg]
    refine ⟨by simpa using k1, ?_⟩
    intro e he
    rcases List.mem_cons.mp he with rfl | he
    · intro _ r; simp
    · exact k2 e he

theorem resolve_phase_keeps (g fn : String) (r : Nat) (inDlsym inPrintf : State → Step)
    (hd : Keeps fn inDlsym) (hp : Keeps fn inPrintf) :
    Keeps fn (resolve_phase g r inDlsym inPrintf) := by
  intro s hs
  by_cases hc : s.original_fn_ptr g = 0
  · have hne : fn ≠ g := by rintro rfl; exact hs hc
    obtain ⟨d1, d2⟩ := hd s hs
    by_cases hr : r = 0
    · subst hr
      have h1 : ((inDlsym s).state.set_ptr g 0).original_fn_ptr fn ≠ 0 := by
        rw [set_ptr_other _ _ _ _ hne, d1]; exact hs
      obtain ⟨p1, p2⟩ := hp _ h1
      rw [resolve_phase_missing g inDlsym inPrintf s hc]
      refine ⟨by rw [p1, set_ptr_other _ _ _ _ hne, d1], ?_⟩
      intro e he hfn
      simp only [List.mem_append, List.mem_cons] at he
      rcases he with (rfl | he) | rfl | he
      · exact absurd hfn.symm hne
      · exact d2 e he hfn
      · exact absurd hfn.symm hne
      · exact p2 e he hfn
    · rw [resolve_phase_found g r inDlsym inPrintf s hc hr]
      refine ⟨by rw [set_ptr_other _ _ _ _ hne, d1], ?_⟩
      intro e he hfn
      rcases List.mem_cons.mp he with rfl | he
      · exact absurd hfn.symm hne
      · exact d2 e he hfn
  · rw [resolve_phase_cached g r inDlsym inPrintf s hc]
    exact ⟨rfl, by intro e he; cases he⟩

theorem stub_keeps (a : Arch) (g fn : String) (d : Decision) (r : Nat)
    (inDA inDlsym inPrintf : State → Step)
    (ha : Keeps fn inDA) (hd : Keeps fn inDlsym) (hp : Keeps fn inPrintf) :
    Keeps fn (stub a g d r inDA inDlsym inPrintf) := by
  intro s hs
  obtain ⟨a1, a2⟩ := decide_phase_keeps a g fn d inDA ha s hs
  simp only [] at a1 a2
  have h1 : (decide_phase a g d inDA s).2.state.original_fn_ptr fn ≠ 0 := by rw [a1]; exact hs
  obtain ⟨q1, q2⟩ := resolve_phase_keeps g fn r inDlsym inPrintf hd hp _ h1
  refine ⟨by rw [stub_ptr, q1, a1], ?_⟩
  intro e he hfn
  rw [stub_events] at he
  simp only [List.mem_append, List.mem_cons] at he
  rcases he with rfl | he | he | he
  · intro r; simp
  · exact a2 e he hfn
  · exact q2 e he hfn
  · exact finish_no_dlsym _ _ _ e he

theorem run_keeps (a : Arch) (fn : String) (c : Calls) : Keeps fn (run a c) := by
  induction c with
  | done => intro s _; exact ⟨rfl, by intro e he; cases he⟩
  | call g d inDA r inDlsym inPrintf next iha ihd ihp ihn =>
    intro s hs
    obtain ⟨a1, a2⟩ := stub_keeps a g fn d r _ _ _ iha ihd ihp s hs
    have h1 : (stub a g d r (run a inDA) (run a inDlsym) (run a inPrintf)
        s).state.original_fn_ptr fn ≠ 0 := by rw [a1]; exact hs
    obtain ⟨b1, b2⟩ := ihn _ h1
    simp only [run]
    refine ⟨by rw [b1, a1], ?_⟩
    intro e he
    rcases List.mem_append.mp he with he | he
    · exact a2 e he
    · exact b2 e he

theorem decide_phase_traced (a : Arch) (g fn : String) (d : Decision) (inDA : State → Step)
    (h : Traced fn inDA) : Traced fn (fun s => (decide_phase a g d inDA s).2) := by
  intro s
  cases hg : gate a s
  · simp only [decide_phase_closed a g d inDA s hg]
    exact Looked.refl ..
  · simp only [decide_phase_open a g d inDA s hg]
    exact (h (s.set_guard 1)).mono (fun e he => List.mem_cons_of_mem _ he)

/-- The store of a lookup result, seen from the name `fn`. -/
theorem set_ptr_looked (g fn : String) (r : Nat) (s n : State) (t : List Event) (x : Int)
    (h : Looked fn (s.original_fn_ptr fn) (n.original_fn_ptr fn) t) :
    Looked fn (s.original_fn_ptr fn) ((n.set_ptr g r).original_fn_ptr fn)
      (⟨g, x, .dlsym r⟩ :: t) := by
  by_cases hfn : fn = g
  · subst hfn
    rw [set_ptr_same]
    exact Or.inr ⟨_, List.mem_cons_self _ _, rfl, rfl⟩
  · rw [set_ptr_other _ _ _ _ hfn]
    exact h.mono (fun e he => List.mem_cons_of_mem _ he)

theorem resolve_phase_traced (g fn : String) (r : Nat) (inDlsym inPrintf : State → Step)
    (hd : Traced fn inDlsym) (hp : Traced fn inPrintf) :
    Traced fn (resolve_phase g r inDlsym inPrintf) := by
  intro s
  by_cases hc : s.original_fn_ptr g = 0
  · have h1 := fun r => set_ptr_looked g fn r s (inDlsym s).state (inDlsym s).events
      s.no_intercept (hd s)
    by_cases hr : r = 0
    · subst hr
      rw [resolve_phase_missing g inDlsym inPrintf s hc]
      refine Looked.trans (h1 0) (hp _) ?_ ?_
      · intro e he; exact List.mem_append_left _ he
      · intro e he; exact List.mem_append_right _ (List.mem_cons_of_mem _ he)
    · rw [resolve_phase_found g r inDlsym inPrintf s hc hr]
      exact h1 r
  · rw [resolve_phase_cached g r inDlsym inPrintf s hc]
    exact Looked.refl ..

theorem stub_traced (a : Arch) (g fn : String) (d : Decision) (r : Nat)
    (inDA inDlsym inPrintf : State → Step)
    (ha : Traced fn inDA) (hd : Traced fn inDlsym) (hp : Traced fn inPrintf) :
    Traced fn (stub a g d r inDA inDlsym inPrintf) := by
  intro s
  have h1 := decide_phase_traced a g fn d inDA ha s
  have h2 := resolve_phase_traced g fn r inDlsym inPrintf hd hp (decide_phase a g d inDA s).2.state
  simp only [] at h1
  rw [stub_ptr, stub_events]
  refine Looked.trans h1 h2 ?_ ?_
  · intro e he
    exact List.mem_cons_of_mem _ (List.mem_append_left _ he)
  · intro e he
    exact List.mem_cons_of_mem _ (List.mem_append_right _ (List.mem_append_left _ he))

theorem run_traced (a : Arch) (fn : String) (c : Calls) : Traced fn (run a c) := by
  induction c with
  | done => intro s; exact Looked.refl ..
  | call g d inDA r inDlsym inPrintf next iha ihd ihp ihn =>
    intro s
    have h1 := stub_traced a g fn d r _ _ _ iha ihd ihp s
    have h2 := ihn (stub a g d r (run a inDA) (run a inDlsym) (run a inPrintf) s).state
    simp only [run]
    exact Looked.trans h1 h2 (fun e he => List.mem_append_left _ he)
      (fun e he => List.mem_append_right _ he)

/-! ## Lookups come before jumps -/

theorem jumps_resolved_snoc {t : List Event} {e : Event} (ht : jumps_resolved t)
    (he : ∀ p, e.act = .jmp p → ∃ x ∈ t, x.fn = e.fn ∧ x.act = .dlsym p) :
    jumps_resolved (t ++ [e]) := by
  intro pre x post p hsplit hact
  rcases List.eq_nil_or_concat post with rfl | ⟨post1, y, rfl⟩
  · have h := List.append_inj' hsplit rfl
    obtain ⟨h1, h2⟩ := h
    have hx : e = x := by simpa using h2
    subst hx; subst h1
    exact he p hact
  · have h3 : t ++ [e] = (pre ++ x :: post1) ++ [y] := by
      rw [hsplit]; simp
    have h := List.append_inj' h3 rfl
    exact ht pre x post1 p h.1 hact

theorem jumps_resolved_quiet {u : List Event} :
    ∀ {t : List Event}, jumps_resolved t → (∀ e ∈ u, ∀ p, e.act ≠ .jmp p) →
      jumps_resolved (t ++ u) := by
  induction u with
  | nil => intro t ht _; simpa using ht
  | cons e u ih =>
    intro t ht hu
    have h1 : jumps_resolved (t ++ [e]) :=
      jumps_resolved_snoc ht (fun p hp => absurd hp (hu e (List.mem_cons_self _ _) p))
    have h2 := ih h1 (fun x hx => hu x (List.mem_cons_of_mem _ hx))
    simpa using h2

theorem Resolved.weaken {t w : List Event} {s : State} (h : Resolved t s)
    (hw : ∀ e ∈ t, e ∈ w) : Resolved w s := by
  intro fn hfn
  obtain ⟨x, hx, h1⟩ := h fn hfn
  exact ⟨x, hw x hx, h1⟩

theorem Resolved.ptr {t : List Event} {s n : State} (h : Resolved t s)
    (hp : n.original_fn_ptr = s.original_fn_ptr) : Resolved t n := by
  intro fn hfn
  rw [hp] at hfn ⊢
  exact h fn hfn

theorem Resolved.traced {t : List Event} {s : State} {n : State → Step}
    (h : Resolved t s) (hn : ∀ fn, Traced fn n) : Resolved (t ++ (n s).events) (n s).state := by
  intro fn hfn
  rcases hn fn s with h1 | ⟨e, he, h1⟩
  · rw [h1] at hfn ⊢
    obtain ⟨x, hx, h2⟩ := h fn hfn
    exact ⟨x, List.mem_append_left _ hx, h2⟩
  · exact ⟨e, List.mem_append_right _ he, h1⟩

theorem decide_phase_sound (a : Arch) (g : String) (d : Decision) (inDA : State → Step)
    (h : Sound inDA) : Sound (fun s => (decide_phase a g d inDA s).2) := by
  intro t s hr ht
  cases hg : gate a s
  · simpa [decide_phase_closed a g d inDA s hg] using ht
  · simp only [decide_phase_open a g d inDA s hg]
    have h1 : jumps_resolved (t ++ [⟨g, 1, .determine_action⟩]) :=
      jumps_resolved_snoc ht (by intro p hp; simp at hp)
    have h2 : Resolved (t ++ [⟨g, 1, .determine_action⟩]) (s.set_guard 1) :=
      (hr.weaken (fun e he => List.mem_append_left _ he)).ptr rfl
    simpa using h _ _ h2 h1

theorem resolve_phase_sound (g : String) (r : Nat) (inDlsym inPrintf : State → Step)
    (hd : Sound inDlsym) (hp : Sound inPrintf) (td : ∀ fn, Traced fn inDlsym) :
    Sound (resolve_phase g r inDlsym inPrintf) := by
  intro t s hr ht
  by_cases hc : s.original_fn_ptr g = 0
  · have j1 : jumps_resolved (t ++ [⟨g, s.no_intercept, .dlsym r⟩]) :=
      jumps_resolved_snoc ht (by intro p hp; simp at hp)
    have r1 : Resolved (t ++ [⟨g, s.no_intercept, .dlsym r⟩]) s :=
      hr.weaken (fun e he => List.mem_append_left _ he)
    have j2 := hd _ _ r1 j1
    have r2 := r1.traced td
    by_cases hr0 : r = 0
    · subst hr0
      rw [resolve_phase_missing g inDlsym inPrintf s hc]
      have r3 : Resolved ((t ++ [⟨g, s.no_intercept, .dlsym 0⟩]) ++ (inDlsym s).events)
          ((inDlsym s).state.set_ptr g 0) := by
        intro fn hfn
        by_cases hfg : fn = g
        · subst hfg; simp at hfn
        · rw [set_ptr_other _ _ _ _ hfg] at hfn ⊢
          exact r2 fn hfn
      have j4 := jumps_resolved_snoc (e := ⟨g, (inDlsym s).state.no_intercept, .printf⟩) j2
        (by intro p hp; simp at hp)
      have r4 := r3.weaken (w := ((t ++ [⟨g, s.no_intercept, .dlsym 0⟩]) ++ (inDlsym s).events)
        ++ [⟨g, (inDlsym s).state.no_intercept, .printf⟩]) (fun e he => List.mem_append_left _ he)
      have j5 := hp _ _ r4 j4
      simpa using j5
    · rw [resolve_phase_found g r inDlsym inPrintf s hc hr0]
      simpa using j2
  · rw [resolve_phase_cached g r inDlsym inPrintf s hc]
    simpa using ht

/-- After the lookup phase the cached address of the stub, null or not, is
the result of a lookup of its name in the trace so far. -/
theorem resolve_phase_looked_up (g : String) (r : Nat) (inDlsym inPrintf : State → Step)
    (td : ∀ fn, Traced fn inDlsym) (tp : ∀ fn, Traced fn inPrintf)
    (t : List Event) (s : State) (hr : Resolved t s) :
    ∃ x ∈ t ++ (resolve_phase g r inDlsym inPrintf s).events,
      x.fn = g ∧
      x.act = .dlsym ((resolve_phase g r inDlsym inPrintf s).state.original_fn_ptr g) := by
  by_cases h0 : (resolve_phase g r inDlsym inPrintf s).state.original_fn_ptr g = 0
  · by_cases hc : s.original_fn_ptr g = 0
    · by_cases hr0 : r = 0
      · subst hr0
        rw [h0]
        rw [resolve_phase_missing g inDlsym inPrintf s hc]
        exact ⟨⟨g, s.no_intercept, .dlsym 0⟩, by simp, rfl, rfl⟩
      · rw [resolve_phase_found g r inDlsym inPrintf s hc hr0] at h0
        simp at h0
        exact absurd h0 hr0
    · rw [resolve_phase_cached g r inDlsym inPrintf s hc] at h0
      exact absurd h0 hc
  · exact (hr.traced (fun fn => resolve_phase_traced g fn r inDlsym inPrintf (td fn) (tp fn)))
      g h0

theorem stub_sound (a : Arch) (g : String) (d : Decision) (r : Nat)
    (inDA inDlsym inPrintf : State → Step)
    (ha : Sound inDA) (hd : Sound inDlsym) (hp : Sound inPrintf)
    (ta : ∀ fn, Traced fn inDA) (td : ∀ fn, Traced fn inDlsym)
    (tp : ∀ fn, Traced fn inPrintf) :
    Sound (stub a g d r inDA inDlsym inPrintf) := by
  intro t s hr ht
  have j1 : jumps_resolved (t ++ [⟨g, s.no_intercept, .enter⟩]) :=
    jumps_resolved_snoc ht (by intro p hp; simp at hp)
  have r1 : Resolved (t ++ [⟨g, s.no_intercept, .enter⟩]) s :=
    hr.weaken (fun e he => List.mem_append_left _ he)
  have j2 := decide_phase_sound a g d inDA ha _ _ r1 j1
  have r2 := r1.traced (n := fun s => (decide_phase a g d inDA s).2)
    (fun fn => decide_phase_traced a g fn d inDA (ta fn))
  simp only [] at j2 r2
  have j3 := resolve_phase_sound g r inDlsym inPrintf hd hp td _ _ r2 j2
  obtain ⟨x, hx, hx1, hx2⟩ := resolve_phase_looked_up g r inDlsym inPrintf td tp _ _ r2
  rw [stub_events]
  have e1 : t ++ ⟨g, s.no_intercept, .enter⟩ ::
      ((decide_phase a g d inDA s).2.events ++
        ((resolve_phase g r inDlsym inPrintf (decide_phase a g d inDA s).2.state).events ++
          (finish g (outcome a g d r inDA inDlsym inPrintf s)
            (pre_branch a g d r inDA inDlsym inPrintf s).2.state).events))
      = (((t ++ [⟨g, s.no_intercept, .enter⟩]) ++ (decide_phase a g d inDA s).2.events) ++
          (resolve_phase g r inDlsym inPrintf (decide_phase a g d inDA s).2.state).events) ++
          (finish g (outcome a g d r inDA inDlsym inPrintf s)
            (pre_branch a g d r inDA inDlsym inPrintf s).2.state).events := by
    simp
  rw [e1]
  cases ho : outcome a g d r inDA inDlsym inPrintf s with
  | forward p =>
    have hp0 : p = (resolve_phase g r inDlsym inPrintf
        (decide_phase a g d inDA s).2.state).state.original_fn_ptr g := by
      have h5 : ∀ f q, branch a f q = .forward p → p = q := by
        intro f q hb
        cases a <;> simp only [branch] at hb <;> split_ifs at hb <;> simp_all
      have h6 := h5 _ _ (by simpa [outcome] using ho)
      rw [h6, pre_branch_ptr]
    simp only [finish]
    refine jumps_resolved_snoc j3 ?_
    intro q hq
    have hq1 : q = p := by simpa using hq.symm
    subst hq1
    exact ⟨x, hx, hx1, by rw [hx2, hp0]⟩
  | fail e c =>
    exact jumps_resolved_quiet j3 (by simp [finish])
  | call_then_fail p e c =>
    exact jumps_resolved_quiet j3 (by simp [finish])
  | fall_off =>
    exact jumps_resolved_quiet j3 (by simp [finish])

theorem run_sound (a : Arch) (c : Calls) : Sound (run a c) := by
  induction c with
  | done => intro t s _ ht; simpa [run] using ht
  | call g d inDA r inDlsym inPrintf next iha ihd ihp ihn =>
    intro t s hr ht
    have j1 := stub_sound a g d r _ _ _ iha ihd ihp (fun fn => run_traced a fn inDA)
      (fun fn => run_traced a fn inDlsym) (fun fn => run_traced a fn inPrintf) t s hr ht
    have r1 := hr.traced (n := stub a g d r (run a inDA) (run a inDlsym) (run a inPrintf))
      (fun fn => stub_traced a g fn d r _ _ _ (run_traced a fn inDA) (run_traced a fn inDlsym)
        (run_traced a fn inPrintf))
    have j2 := ihn _ _ r1 j1
    simpa [run] using j2

/-! ## A `dlsym` that answers the same for the same name -/

theorem stub_agreeing (a : Arch) (g fn : String) (v : Nat) (d : Decision) (r : Nat)
    (inDA inDlsym inPrintf : State → Step) (hg : g = fn → r = v)
    (ha : Agreeing fn v inDA) (hd : Agreeing fn v inDlsym) (hp : Agreeing fn v inPrintf) :
    Agreeing fn v (stub a g d r inDA inDlsym inPrintf) := by
  intro s e he hfn x hx
  rw [stub_events] at he
  simp only [List.mem_append, List.mem_cons] at he
  rcases he with rfl | he | he | he
  · simp at hx
  · unfold decide_phase at he
    split at he
    · rcases List.mem_cons.mp he with rfl | he
      · simp at hx
      · exact ha _ e he hfn x hx
    · cases he
  · unfold resolve_phase at he
    split at he
    · simp only [] at he
      split at he
      · simp only [List.mem_append, List.mem_cons] at he
        rcases he with (rfl | he) | rfl | he
        · simp only [Action.dlsym.injEq] at hx
          subst hx
          exact hg hfn
        · exact hd _ e he hfn x hx
        · simp at hx
        · exact hp _ e he hfn x hx
      · rcases List.mem_cons.mp he with rfl | he
        · simp only [Action.dlsym.injEq] at hx
          subst hx
          exact hg hfn
        · exact hd _ e he hfn x hx
    · cases he
  · exact absurd hx (finish_no_dlsym _ _ _ e he x)

theorem run_agreeing (a : Arch) (fn : String) (v : Nat) (c : Calls)
    (h : c.returns fn v = true) : Agreeing fn v (run a c) := by
  induction c with
  | done => intro s e he; cases he
  | call g d inDA r inDlsym inPrintf next iha ihd ihp ihn =>
    simp only [Calls.returns, Bool.and_eq_true, Bool.or_eq_true, bne_iff_ne, ne_eq,
      beq_iff_eq] at h
    obtain ⟨⟨⟨⟨h1, h2⟩, h3⟩, h4⟩, h5⟩ := h
    have hg : g = fn → r = v := by
      intro hgf
      rcases h1 with h1 | h1
      · exact absurd hgf h1
      · exact h1
    intro s e he
    simp only [run] at he
    rcases List.mem_append.mp he with he | he
    · exact stub_agreeing a g fn v d r _ _ _ hg (iha h2) (ihd h3) (ihp h4) s e he
    · exact ihn h5 _ e he

/-- When every lookup of `fn` returns `v`, the cache of `fn` holds after the
calls what it held before them, or `v`. -/
theorem run_stores_same (a : Arch) (fn : String) (v : Nat) (c : Calls)
    (h : c.returns fn v = true) (s : State) :
    (run a c s).state.original_fn_ptr fn = s.original_fn_ptr fn ∨
    (run a c s).state.original_fn_ptr fn = v := by
  rcases run_traced a fn c s with h1 | ⟨e, he, hfn, hact⟩
  · exact Or.inl h1
  · exact Or.inr (run_agreeing a fn v c h s e he hfn _ hact)

/-- A stub entered with a null cache looks its name up, itself or in a
dispatch nested in its call of `determine_action`. -/
theorem stub_looks_up (a : Arch) (fn : String) (d : Decision) (r : Nat)
    (inDA inDlsym inPrintf : State → Step) (ta : Traced fn inDA) (s : State)
    (h : s.original_fn_ptr fn = 0) :
    ∃ e ∈ (stub a fn d r inDA inDlsym inPrintf s).events, e.fn = fn ∧ ∃ x, e.act = .dlsym x := by
  rw [stub_events]
  by_cases hc : (decide_phase a fn d inDA s).2.state.original_fn_ptr fn = 0
  · refine ⟨⟨fn, (decide_phase a fn d inDA s).2.state.no_intercept, .dlsym r⟩, ?_, rfl, r, rfl⟩
    apply List.mem_cons_of_mem
    apply List.mem_append_right
    apply List.mem_append_left
    by_cases hr : r = 0
    · subst hr
      rw [resolve_phase_missing fn inDlsym inPrintf _ hc]
      simp
    · rw [resolve_phase_found fn r inDlsym inPrintf _ hc hr]
      simp
  · rcases decide_phase_traced a fn fn d inDA ta s with h1 | ⟨e, he, hfn, hact⟩
    · simp only [] at h1
      rw [h] at h1
      exact absurd h1 hc
    · exact ⟨e, List.mem_cons_of_mem _ (List.mem_append_left _ he), hfn, _, hact⟩

/-- A stub that leaves by the forward branch jumps to the value its cache
holds at the `if` chain, and the jump is its last step. -/
theorem forward_target (a : Arch) (fn : String) (d : Decision) (r : Nat)
    (inDA inDlsym inPrintf : State → Step) (s : State) (p : Nat)
    (ho : outcome a fn d r inDA inDlsym inPrintf s = .forward p) :
    p = (pre_branch a fn d r inDA inDlsym inPrintf s).2.state.original_fn_ptr fn ∧
    (stub a fn d r inDA inDlsym inPrintf s).events
      = (pre_branch a fn d r inDA inDlsym inPrintf s).2.events ++
          [⟨fn, s.no_intercept, .jmp p⟩] := by
  have h5 : ∀ f q, branch a f q = .forward p → p = q := by
    intro f q hb
    cases a <;> simp only [branch] at hb <;> split_ifs at hb <;> simp_all
  have hp := h5 _ _ (by simpa [outcome] using ho)
  refine ⟨hp, ?_⟩
  have hb : branch a (pre_branch a fn d r inDA inDlsym inPrintf s).1
      ((pre_branch a fn d r inDA inDlsym inPrintf s).2.state.original_fn_ptr fn)
      = .forward p := by simpa [outcome] using ho
  simp only [stub, hb, finish, pre_branch_guard]

/-- The `dlsym` result is stored: a stub of `fn` entered with a null cache (or
one that already holds `v`), in a dispatch where every lookup of `fn`
returns `v`, leaves `v` in the cache. -/
theorem stub_stores (a : Arch) (fn : String) (v : Nat) (d : Decision)
    (inDA inDlsym inPrintf : State → Step)
    (ta : Traced fn inDA) (ga : Agreeing fn v inDA)
    (tp : Traced fn inPrintf) (gp : Agreeing fn v inPrintf) (s : State)
    (h : s.original_fn_ptr fn = 0 ∨ s.original_fn_ptr fn = v) :
    (stub a fn d v inDA inDlsym inPrintf s).state.original_fn_ptr fn = v := by
  rw [stub_ptr]
  have h1 : (decide_phase a fn d inDA s).2.state.original_fn_ptr fn = 0 ∨
      (decide_phase a fn d inDA s).2.state.original_fn_ptr fn = v := by
    cases hg : gate a s
    · simpa [decide_phase_closed a fn d inDA s hg] using h
    · simp only [decide_phase_open a fn d inDA s hg]
      rcases ta (s.set_guard 1) with h2 | ⟨e, he, hfn, hact⟩
      · rw [h2]; simpa using h
      · exact Or.inr (ga _ e he hfn _ hact)
  by_cases hc : (decide_phase a fn d inDA s).2.state.original_fn_ptr fn = 0
  · by_cases hv : v = 0
    · subst hv
      rw [resolve_phase_missing fn inDlsym inPrintf _ hc]
      rcases tp ((inDlsym (decide_phase a fn d inDA s).2.state).state.set_ptr fn 0)
        with h2 | ⟨e, he, hfn, hact⟩
      · rw [h2]; simp
      · exact gp _ e he hfn _ hact
    · rw [resolve_phase_found fn v inDlsym inPrintf _ hc hv]
      simp
  · rw [resolve_phase_cached fn v inDlsym inPrintf _ hc]
    rcases h1 with h1 | h1
    · exact absurd h1 hc
    · exact h1

/-! ## Pushes and pops -/

theorem wrap_eq (n : Nat) : wrap n = n % 18446744073709551616 := by
  unfold wrap word
  rfl

theorem word_eq : word = 18446744073709551616 := by
  unfold word
  rfl

theorem word_pow : word = 2 ^ 64 := by
  rw [word_eq]; norm_num


theorem exec_push (r : Reg) (m : Machine) :
    exec (.push r) m = ⟨m.reg, wrap (m.rsp + (word - 8)),
      fun a => if a = wrap (m.rsp + (word - 8)) then m.reg r else m.mem a⟩ := by
  cases m
  rfl

theorem exec_pop (r : Reg) (m : Machine) :
    exec (.pop r) m
      = ⟨fun x => if x = r then m.mem m.rsp else m.reg x, wrap (m.rsp + 8), m.mem⟩ := by
  cases m
  rfl

theorem exec_add_rsp (n : Nat) (m : Machine) :
    exec (.add_rsp n) m = ⟨m.reg, wrap (m.rsp + n), m.mem⟩ := by
  cases m
  rfl

theorem exec_leave (m : Machine) :
    exec .leave m
      = ⟨fun x => if x = .rbp then m.mem (m.reg .rbp) else m.reg x, wrap (m.reg .rbp + 8),
         m.mem⟩ := by
  cases m
  rfl

theorem push_rsp_lt (r : Reg) (m : Machine) : (exec (.push r) m).rsp < word := by
  rw [exec_push]
  show wrap _ < word
  rw [wrap_eq, word_eq]
  omega

theorem bracket_spec (r : Reg) (x : Machine → Machine) (m : Machine) (n : Nat)
    (hsp : m.rsp < word) (hn : 8 * (n + 1) < word)
    (h : Preserves (n + 1) x (exec (.push r) m)) :
    Preserves n (bracket r x) m ∧ (bracket r x m).reg r = m.reg r ∧
    ∀ y, y ≠ r → (bracket r x m).reg y = (x (exec (.push r) m)).reg y := by
  obtain ⟨h1, h2⟩ := h
  rw [exec_push] at h1 h2
  simp only [] at h1 h2
  rw [word_eq] at hsp hn
  have e0 : wrap (wrap (m.rsp + (word - 8)) + 8) = m.rsp := by
    simp only [wrap_eq, word_eq]
    omega
  refine ⟨⟨?_, ?_⟩, ?_, ?_⟩
  · unfold bracket
    rw [exec_pop, exec_push]
    show wrap ((x _).rsp + 8) = m.rsp
    rw [h1, e0]
  · intro k hk
    have e1 : wrap (m.rsp + 8 * k) = wrap (wrap (m.rsp + (word - 8)) + 8 * (k + 1)) := by
      simp only [wrap_eq, word_eq]
      omega
    have e2 : wrap (m.rsp + 8 * k) ≠ wrap (m.rsp + (word - 8)) := by
      simp only [wrap_eq, word_eq]
      omega
    have h3 := h2 (k + 1) (by omega)
    rw [← e1, if_neg e2] at h3
    unfold bracket
    rw [exec_pop, exec_push]
    exact h3
  · have h3 := h2 0 (by omega)
    have e1 : wrap (wrap (m.rsp + (word - 8)) + 8 * 0) = wrap (m.rsp + (word - 8)) := by
      simp only [wrap_eq, word_eq]
      omega
    rw [e1, if_pos rfl] at h3
    unfold bracket
    rw [exec_pop, exec_push]
    show (if r = r then (x _).mem (x _).rsp else _) = _
    rw [if_pos rfl, h1]
    exact h3
  · intro y hy
    unfold bracket
    rw [exec_pop]
    show (if y = r then _ else _) = _
    rw [if_neg hy]

theorem push_reg (r : Reg) (m : Machine) : (exec (.push r) m).reg = m.reg := by
  rw [exec_push]

theorem exec_all_cons (i : Instr) (is : List Instr) (m : Machine) :
    exec_all (i :: is) m = exec_all is (exec i m) := rfl

theorem exec_all_append (is js : List Instr) :
    ∀ m, exec_all (is ++ js) m = exec_all js (exec_all is m) := by
  induction is with
  | nil => intro m; rfl
  | cons i is ih => intro m; exact ih (exec i m)

theorem brackets_spec (x : Machine → Machine) (rs : List Reg) :
    ∀ (m : Machine) (n : Nat), rs.Nodup → m.rsp < word → 8 * (rs.length + n) < word →
      Preserves (rs.length + n) x (exec_all (rs.map .push) m) →
      Preserves n (brackets rs x) m ∧ ∀ y ∈ rs, (brackets rs x m).reg y = m.reg y := by
  induction rs with
  | nil =>
    intro m n _ _ _ h
    refine ⟨?_, ?_⟩
    · simpa [brackets, exec_all] using h
    · intro y hy; cases hy
  | cons r rs ih =>
    intro m n hnd hsp hn h
    have hnd1 := List.nodup_cons.mp hnd
    have hlen : (r :: rs).length + n = rs.length + (n + 1) := by
      simp only [List.length_cons]; omega
    rw [hlen] at h hn
    rw [List.map_cons, exec_all_cons] at h
    obtain ⟨p1, p2⟩ := ih (exec (.push r) m) (n + 1) hnd1.2 (push_rsp_lt r m) hn h
    have hn1 : 8 * (n + 1) < word := by omega
    obtain ⟨q1, q2, q3⟩ := bracket_spec r (brackets rs x) m n hsp hn1 p1
    refine ⟨q1, ?_⟩
    intro y hy
    rcases List.mem_cons.mp hy with rfl | hy2
    · exact q2
    · have hne : y ≠ r := by
        intro hyr
        rw [hyr] at hy2
        exact hnd1.1 hy2
      show (bracket r (brackets rs x) m).reg y = m.reg y
      rw [q3 y hne, p2 y hy2, push_reg]

theorem brackets_eq (x : Machine → Machine) (rs : List Reg) :
    ∀ m, exec_all (rs.reverse.map .pop) (x (exec_all (rs.map .push) m)) = brackets rs x m := by
  induction rs with
  | nil => intro m; rfl
  | cons r rs ih =>
    intro m
    have h1 : ∀ z, exec_all ((r :: rs).reverse.map .pop) z
        = exec (.pop r) (exec_all (rs.reverse.map .pop) z) := by
      intro z
      rw [List.reverse_cons, List.map_append, exec_all_append]
      rfl
    rw [h1, List.map_cons, exec_all_cons, ih]
    rfl

theorem pushes_rsp (rs : List Reg) :
    ∀ m, m.rsp < word →
      (exec_all (rs.map .push) m).rsp = wrap (m.rsp + rs.length * (word - 8)) := by
  induction rs with
  | nil =>
    intro m hm
    rw [word_eq] at hm
    simp only [List.map_nil, exec_all, List.length_nil, wrap_eq, word_eq]
    omega
  | cons r rs ih =>
    intro m _
    rw [List.map_cons, exec_all_cons, ih _ (push_rsp_lt r m), exec_push]
    simp only [List.length_cons, wrap_eq, word_eq]
    omega

/-! ## The stub contracts -/

/-- C1 (guard restoration). For both generators, every entry value of
`no_intercept`, every `init_done`, every result of `determine_action` and of
`dlsym`, and whatever the called functions do: when the stub reaches its
`if` chain `no_intercept` holds its entry value, the statements of the
chosen branch run at that value and leave it in place, and so a whole
sequence of dispatches, nested ones included, ends with the guard it began
with. -/
theorem guard_restored (a : Arch) (fn : String) (d : Decision) (r : Nat)
    (inDA inDlsym inPrintf : State → Step) (s : State) :
    (pre_branch a fn d r inDA inDlsym inPrintf s).2.state.no_intercept = s.no_intercept ∧
    (∀ e ∈ (finish fn (outcome a fn d r inDA inDlsym inPrintf s)
              (pre_branch a fn d r inDA inDlsym inPrintf s).2.state).events,
        e.guard = s.no_intercept) ∧
    (stub a fn d r inDA inDlsym inPrintf s).state.no_intercept = s.no_intercept ∧
    (∀ c : Calls, (run a c s).state.no_intercept = s.no_intercept) := by
  refine ⟨pre_branch_guard .., ?_, stub_guard .., fun c => run_guard a c s⟩
  intro e he
  rw [((finish_guard _ _ _).2.2.2 e he).1, pre_branch_guard]

/-- C2 (guarded entry forwards). In an initialised process a dispatch calls
`determine_action` exactly once, nested dispatches counted, when
`no_intercept` is 0 on entry, and not at all when it is non-zero; in the
second case the locals keep `call_original = 1`, `return_error = 0`, the
stub leaves by the forward branch and `errno` is not written. -/
theorem guarded_entry_forwards (a : Arch) (fn : String) (d : Decision) (inDA : Calls)
    (r : Nat) (inDlsym inPrintf : Calls) (s : State) (hinit : s.init_done ≠ 0) :
    (s.no_intercept = 0 →
      decisions (stub a fn d r (run a inDA) (run a inDlsym) (run a inPrintf) s).events = 1) ∧
    (s.no_intercept ≠ 0 →
      decisions (stub a fn d r (run a inDA) (run a inDlsym) (run a inPrintf) s).events = 0 ∧
      (pre_branch a fn d r (run a inDA) (run a inDlsym) (run a inPrintf) s).1.call_original = 1 ∧
      (pre_branch a fn d r (run a inDA) (run a inDlsym) (run a inPrintf) s).1.return_error = 0 ∧
      outcome a fn d r (run a inDA) (run a inDlsym) (run a inPrintf) s
        = .forward ((pre_branch a fn d r (run a inDA) (run a inDlsym) (run a inPrintf)
            s).2.state.original_fn_ptr fn) ∧
      (∀ e ∈ (stub a fn d r (run a inDA) (run a inDlsym) (run a inPrintf) s).events,
        ∀ v, e.act ≠ .set_errno v) ∧
      (stub a fn d r (run a inDA) (run a inDlsym) (run a inPrintf) s).state.errno = s.errno) := by
  constructor
  · intro h0
    have hg : gate a s = true := by cases a <;> simp [gate, h0, hinit]
    have h1 : (s.set_guard 1).no_intercept ≠ 0 := by simp
    obtain ⟨n1, _, n3, _⟩ := run_transparent a inDA (s.set_guard 1) h1
    have h2 : (run a inDA (s.set_guard 1)).state.no_intercept ≠ 0 := by rw [n1]; exact h1
    obtain ⟨_, _, q3, _⟩ := resolve_phase_transparent fn r (run a inDlsym) (run a inPrintf)
      (run_transparent a inDlsym) (run_transparent a inPrintf) _ h2
    rw [stub_open a fn d r _ _ _ s hg]
    simp only [decisions_append, finish_decisions, n3.decisions, q3.decisions]
    simp only [decisions, List.countP_cons, List.countP_append, List.countP_nil]
    have e1 := n3.decisions
    have e2 := q3.decisions
    simp only [decisions] at e1 e2
    simp [e1, e2]
  · intro h0
    have hs := stub_transparent a fn d r (run a inDA) (run a inDlsym) (run a inPrintf)
      (run_transparent a inDlsym) (run_transparent a inPrintf) s h0
    obtain ⟨_, s2, s3, _⟩ := hs
    have hg := gate_of_guard a s h0
    refine ⟨s3.decisions, ?_, ?_, ?_, ?_, s2⟩
    · rw [pre_branch_closed a fn d r _ _ _ s hg]; rfl
    · rw [pre_branch_closed a fn d r _ _ _ s hg]; rfl
    · simp only [outcome, pre_branch_closed a fn d r _ _ _ s hg, branch_defaults]
    · intro e he v hv
      have := (s3 e he).2
      rw [hv] at this
      simp [Action.passes] at this

theorem guarded_entry_forwards_witness :
    decisions (stub .x86 "read" ⟨0, 1, -1, 5⟩ 4096
      (run .x86 (.single "write" ⟨0, 1, -1, 5⟩ 8192)) (run .x86 .done) (run .x86 .done)
      (State.start 1)).events = 1 ∧
    outcome .x64 "read" ⟨0, 1, -1, 5⟩ 4096 (run .x64 .done) (run .x64 .done) (run .x64 .done)
      ((State.start 1).set_guard 1) = .forward 4096 := by
  constructor
  · exact (guarded_entry_forwards .x86 "read" ⟨0, 1, -1, 5⟩ (.single "write" ⟨0, 1, -1, 5⟩ 8192)
      4096 .done .done (State.start 1) (by decide)).1 rfl
  · have h := (guarded_entry_forwards .x64 "read" ⟨0, 1, -1, 5⟩ .done 4096 .done .done
      ((State.start 1).set_guard 1) (by decide)).2 (by decide)
    exact h.2.2.2.1

/-- C3 (fail path). When the stub calls `determine_action` and it reports a
non-zero `return_error`, whatever it reports for `call_original`, the stub
leaves by the fail branch: its last two steps store the reported
`return_errno` into `errno` and return the reported `return_code`, and it
makes no jump or call to the real function. -/
theorem fail_path (a : Arch) (fn : String) (d : Decision) (r : Nat)
    (inDA inDlsym inPrintf : State → Step) (s : State)
    (hg : gate a s = true) (he : d.return_error ≠ 0) :
    outcome a fn d r inDA inDlsym inPrintf s = .fail d.return_errno d.return_code ∧
    (stub a fn d r inDA inDlsym inPrintf s).events
      = (pre_branch a fn d r inDA inDlsym inPrintf s).2.events ++
          [⟨fn, s.no_intercept, .set_errno d.return_errno⟩,
           ⟨fn, s.no_intercept, .ret d.return_code⟩] ∧
    (stub a fn d r inDA inDlsym inPrintf s).state.errno = d.return_errno := by
  have hb : ∀ p, branch a ((defaults s).store d) p = .fail d.return_errno d.return_code := by
    intro p; exact branch_fail a _ p he
  refine ⟨?_, ?_, ?_⟩
  · simp only [outcome, pre_branch_open a fn d r _ _ _ s hg, hb]
  · simp only [stub, pre_branch_open a fn d r _ _ _ s hg, hb, finish]
    simp [defaults, Frame.store]
  · simp only [stub, pre_branch_open a fn d r _ _ _ s hg, hb, finish]

theorem fail_path_witness :
    outcome .x86 "open" ⟨1, 1, -1, 13⟩ 4096 (run .x86 .done) (run .x86 .done) (run .x86 .done)
      (State.start 1) = .fail 13 (-1) :=
  (fail_path .x86 "open" ⟨1, 1, -1, 13⟩ 4096 (run .x86 .done) (run .x86 .done) (run .x86 .done)
    (State.start 1) (by decide) (by decide)).1

/-- C5 (initialisation suppression), evaluated. With `init_done = 0` and the
guard clear, the x64 stub of `open` calls `determine_action` and, when that
reports an error, fails the call; the x86 stub on the same input does not
call it and forwards. -/
theorem x64_decides_before_init :
    (run .x64 (.single "open" ⟨0, 1, -1, 13⟩ 4096) (State.start 0)).events
      = [⟨"open", 0, .enter⟩, ⟨"open", 1, .determine_action⟩, ⟨"open", 1, .dlsym 4096⟩,
         ⟨"open", 0, .set_errno 13⟩, ⟨"open", 0, .ret (-1)⟩] ∧
    (run .x86 (.single "open" ⟨0, 1, -1, 13⟩ 4096) (State.start 0)).events
      = [⟨"open", 0, .enter⟩, ⟨"open", 0, .dlsym 4096⟩, ⟨"open", 0, .jmp 4096⟩] := by
  decide

/-- C6 (reentrancy suppression). In a dispatch that calls `determine_action`
the guard is 1 at that call, at every step of the dispatches nested in it,
at the `dlsym` and `printf` of the lookup and at every step nested in those,
and is still 1 after the lookup; it holds the entry value 0 again at the
`if` chain. No nested dispatch calls `determine_action` or leaves by another
branch than the forward one. -/
theorem nested_calls_suppressed (a : Arch) (fn : String) (d : Decision) (inDA : Calls)
    (r : Nat) (inDlsym inPrintf : Calls) (s : State) (hg : gate a s = true) :
    (pre_branch a fn d r (run a inDA) (run a inDlsym) (run a inPrintf) s).2.events
      = ⟨fn, s.no_intercept, .enter⟩ :: ⟨fn, 1, .determine_action⟩ ::
          ((run a inDA (s.set_guard 1)).events ++
           (resolve_phase fn r (run a inDlsym) (run a inPrintf)
              (run a inDA (s.set_guard 1)).state).events) ∧
    (∀ e ∈ (run a inDA (s.set_guard 1)).events ++
           (resolve_phase fn r (run a inDlsym) (run a inPrintf)
              (run a inDA (s.set_guard 1)).state).events,
        e.guard = 1 ∧ e.act.passes = true) ∧
    decisions ((run a inDA (s.set_guard 1)).events ++
           (resolve_phase fn r (run a inDlsym) (run a inPrintf)
              (run a inDA (s.set_guard 1)).state).events) = 0 ∧
    entries ((run a inDA (s.set_guard 1)).events ++
           (resolve_phase fn r (run a inDlsym) (run a inPrintf)
              (run a inDA (s.set_guard 1)).state).events)
      = forwards ((run a inDA (s.set_guard 1)).events ++
           (resolve_phase fn r (run a inDlsym) (run a inPrintf)
              (run a inDA (s.set_guard 1)).state).events) ∧
    (resolve_phase fn r (run a inDlsym) (run a inPrintf)
        (run a inDA (s.set_guard 1)).state).state.no_intercept = 1 ∧
    (pre_branch a fn d r (run a inDA) (run a inDlsym) (run a inPrintf) s).2.state.no_intercept
      = 0 := by
  have h1 : (s.set_guard 1).no_intercept ≠ 0 := by simp
  obtain ⟨n1, _, n3, n4⟩ := run_transparent a inDA (s.set_guard 1) h1
  have h2 : (run a inDA (s.set_guard 1)).state.no_intercept ≠ 0 := by rw [n1]; exact h1
  obtain ⟨q1, _, q3, q4⟩ := resolve_phase_transparent fn r (run a inDlsym) (run a inPrintf)
    (run_transparent a inDlsym) (run_transparent a inPrintf) _ h2
  rw [n1] at q1 q3
  simp only [set_guard_no_intercept] at q1 q3 n3
  have hs : Suppressed 1 ((run a inDA (s.set_guard 1)).events ++
      (resolve_phase fn r (run a inDlsym) (run a inPrintf)
        (run a inDA (s.set_guard 1)).state).events) := Suppressed.append n3 q3
  refine ⟨?_, hs, hs.decisions, ?_, q1, ?_⟩
  · rw [pre_branch_open a fn d r _ _ _ s hg]
    simp
  · rw [entries_append, forwards_append, n4, q4]
  · rw [pre_branch_guard]; exact gate_guard a s hg

theorem nested_calls_suppressed_witness :
    decisions ((run .x64 (.single "write" ⟨0, 1, -1, 5⟩ 0) ((State.start 1).set_guard 1)).events ++
        (resolve_phase "open" 0 (run .x64 .done) (run .x64 (.single "write" ⟨0, 1, -1, 5⟩ 0))
          (run .x64 (.single "write" ⟨0, 1, -1, 5⟩ 0) ((State.start 1).set_guard 1)).state).events)
      = 0 :=
  (nested_calls_suppressed .x64 "open" ⟨1, 0, 0, 0⟩ (.single "write" ⟨0, 1, -1, 5⟩ 0) 0 .done
    (.single "write" ⟨0, 1, -1, 5⟩ 0) (State.start 1) (by decide)).2.2.1

/-- C9, as stated, fails. When `determine_action` writes `call_original = 0`
and `return_error = 0`, both stubs reach the end of the body: no `errno`
store, no return code, no jump to the real function. -/
theorem no_decision_falls_off :
    (run .x64 (.single "open" ⟨0, 0, 0, 0⟩ 4096) (State.start 1)).events
      = [⟨"open", 0, .enter⟩, ⟨"open", 1, .determine_action⟩, ⟨"open", 1, .dlsym 4096⟩,
         ⟨"open", 0, .fall_off⟩] ∧
    (run .x86 (.single "open" ⟨0, 0, 0, 0⟩ 4096) (State.start 1)).events
      = [⟨"open", 0, .enter⟩, ⟨"open", 1, .determine_action⟩, ⟨"open", 1, .dlsym 4096⟩,
         ⟨"open", 0, .fall_off⟩] ∧
    outcome .x64 "open" ⟨0, 0, 0, 0⟩ 4096 (run .x64 .done) (run .x64 .done) (run .x64 .done)
      (State.start 1) = .fall_off ∧
    outcome .x86 "open" ⟨0, 0, 0, 0⟩ 4096 (run .x86 .done) (run .x86 .done) (run .x86 .done)
      (State.start 1) = .fall_off := by
  decide

/-- C9, amended. For every pair (`call_original`, `return_error`) that
`determine_action` writes, the stub leaves by at most one of the two paths:
the fail path exactly when `return_error` is non-zero, the forward path
exactly when `return_error` is 0 and `call_original` is non-zero; when both
are 0 it takes neither and its only closing step is the end of the body,
with `errno` as the called functions left it. -/
theorem decision_selects_branch (a : Arch) (fn : String) (d : Decision) (r : Nat)
    (inDA inDlsym inPrintf : State → Step) (s : State) (hg : gate a s = true) :
    (d.return_error ≠ 0 →
      outcome a fn d r inDA inDlsym inPrintf s = .fail d.return_errno d.return_code) ∧
    (d.return_error = 0 → d.call_original ≠ 0 →
      outcome a fn d r inDA inDlsym inPrintf s
        = .forward ((pre_branch a fn d r inDA inDlsym inPrintf s).2.state.original_fn_ptr fn)) ∧
    (d.return_error = 0 → d.call_original = 0 →
      outcome a fn d r inDA inDlsym inPrintf s = .fall_off ∧
      (stub a fn d r inDA inDlsym inPrintf s).events
        = (pre_branch a fn d r inDA inDlsym inPrintf s).2.events ++
            [⟨fn, s.no_intercept, .fall_off⟩] ∧
      (stub a fn d r inDA inDlsym inPrintf s).state.errno
        = (pre_branch a fn d r inDA inDlsym inPrintf s).2.state.errno) := by
  have hf : (pre_branch a fn d r inDA inDlsym inPrintf s).1 = (defaults s).store d := by
    rw [pre_branch_open a fn d r _ _ _ s hg]
  refine ⟨fun he => ?_, fun he hc => ?_, fun he hc => ?_⟩
  · simp only [outcome, hf]
    exact branch_fail a _ _ he
  · simp only [outcome, hf]
    exact branch_forward a _ _ he hc
  · have hb : ∀ p, branch a ((defaults s).store d) p = .fall_off :=
      fun p => branch_fall_off a _ p he hc
    refine ⟨?_, ?_, ?_⟩
    · simp only [outcome, hf, hb]
    · simp only [stub, hf, hb, finish, pre_branch_guard]
    · simp only [stub, hf, hb, finish]

theorem decision_selects_branch_witness :
    outcome .x64 "open" ⟨0, 0, 7, 9⟩ 4096 (run .x64 .done) (run .x64 .done) (run .x64 .done)
      (State.start 1) = .fall_off ∧
    outcome .x64 "open" ⟨1, 0, 7, 9⟩ 4096 (run .x64 .done) (run .x64 .done) (run .x64 .done)
      (State.start 1) = .forward 4096 ∧
    outcome .x86 "open" ⟨1, 2, 7, 9⟩ 4096 (run .x86 .done) (run .x86 .done) (run .x86 .done)
      (State.start 1) = .fail 9 7 :=
  ⟨((decision_selects_branch .x64 "open" ⟨0, 0, 7, 9⟩ 4096 (run .x64 .done) (run .x64 .done)
      (run .x64 .done) (State.start 1) (by decide)).2.2 (by decide) (by decide)).1,
   (decision_selects_branch .x64 "open" ⟨1, 0, 7, 9⟩ 4096 (run .x64 .done) (run .x64 .done)
      (run .x64 .done) (State.start 1) (by decide)).2.1 (by decide) (by decide),
   (decision_selects_branch .x86 "open" ⟨1, 2, 7, 9⟩ 4096 (run .x86 .done) (run .x86 .done)
      (run .x86 .done) (State.start 1) (by decide)).1 (by decide)⟩

/-- C4 (the forward path uses the resolved address). Whenever a stub leaves
by the forward branch, the target of its jump is the value its
`original_fn_ptr` holds at the `if` chain; and in every sequence of
dispatches from process start, nested ones included, every jump is preceded
in the trace by a `dlsym` of the jumping stub's own name that returned the
jump target, so the lookup comes before the branch. -/
theorem forward_uses_resolved_address (a : Arch) :
    (∀ (fn : String) (d : Decision) (r : Nat) (inDA inDlsym inPrintf : State → Step)
        (s : State) (p : Nat),
      outcome a fn d r inDA inDlsym inPrintf s = .forward p →
        p = (pre_branch a fn d r inDA inDlsym inPrintf s).2.state.original_fn_ptr fn ∧
        (stub a fn d r inDA inDlsym inPrintf s).events
          = (pre_branch a fn d r inDA inDlsym inPrintf s).2.events ++
              [⟨fn, s.no_intercept, .jmp p⟩]) ∧
    (∀ (c : Calls) (init_done : Int) (pre : List Event) (e : Event) (post : List Event)
        (p : Nat),
      (run a c (State.start init_done)).events = pre ++ e :: post → e.act = .jmp p →
        ∃ x ∈ pre, x.fn = e.fn ∧ x.act = .dlsym p) := by
  constructor
  · intro fn d r inDA inDlsym inPrintf s p ho
    exact forward_target a fn d r inDA inDlsym inPrintf s p ho
  · intro c i pre e post p hsplit hact
    have h0 : Resolved [] (State.start i) := by
      intro fn hfn; simp [State.start] at hfn
    have h1 : jumps_resolved [] := by
      intro pre e post p h; simp at h
    have h2 := run_sound a c [] (State.start i) h0 h1
    simp only [List.nil_append] at h2
    exact h2 pre e post p hsplit hact

theorem forward_uses_resolved_address_witness :
    ∃ x ∈ [(⟨"open", 0, .enter⟩ : Event), ⟨"open", 1, .determine_action⟩,
            ⟨"open", 1, .dlsym 4096⟩],
      x.fn = "open" ∧ x.act = .dlsym 4096 :=
  (forward_uses_resolved_address .x64).2 (.single "open" ⟨1, 0, 0, 0⟩ 4096) 1
    [⟨"open", 0, .enter⟩, ⟨"open", 1, .determine_action⟩, ⟨"open", 1, .dlsym 4096⟩]
    ⟨"open", 0, .jmp 4096⟩ [] 4096 (by decide) rfl

/-- C7 (`resolve_once` is idempotent). At the lookup lines of a stub `dlsym`
is called when `original_fn_ptr` is null and nothing at all happens when it
is not; the result of the call is stored, so that a non-null result is the
cache after the lookup lines and a null result is the cache `printf` is
called with; once the cache of a name is non-null, no sequence of dispatches
and decisions changes it or looks the name up again; and when `dlsym`
returns the same address `v` for the name every time, every lookup of the
name in the trace returned `v`, the cache holds after any calls what it held
before them or `v`, and after a dispatch of the stub that began with a null
cache, redundant lookups in nested dispatches included, and after the calls
that follow it, the cache holds exactly `v`. -/
theorem resolve_once_idempotent (a : Arch) (fn : String) :
    (∀ (r : Nat) (inDlsym inPrintf : State → Step) (s : State),
      (s.original_fn_ptr fn ≠ 0 → resolve_phase fn r inDlsym inPrintf s = ⟨s, []⟩) ∧
      (s.original_fn_ptr fn = 0 →
        ∃ t, (resolve_phase fn r inDlsym inPrintf s).events
          = ⟨fn, s.no_intercept, .dlsym r⟩ :: t) ∧
      (s.original_fn_ptr fn = 0 → r ≠ 0 →
        (resolve_phase fn r inDlsym inPrintf s).state.original_fn_ptr fn = r ∧
        ∀ g, g ≠ fn → (resolve_phase fn r inDlsym inPrintf s).state.original_fn_ptr g
          = (inDlsym s).state.original_fn_ptr g) ∧
      (s.original_fn_ptr fn = 0 → r = 0 →
        ((inDlsym s).state.set_ptr fn r).original_fn_ptr fn = 0 ∧
        (resolve_phase fn r inDlsym inPrintf s).state.original_fn_ptr
          = (inPrintf ((inDlsym s).state.set_ptr fn r)).state.original_fn_ptr)) ∧
    (∀ (c : Calls) (s : State), s.original_fn_ptr fn ≠ 0 →
      (run a c s).state.original_fn_ptr fn = s.original_fn_ptr fn ∧
      ∀ e ∈ (run a c s).events, e.fn = fn → ∀ r, e.act ≠ .dlsym r) ∧
    (∀ (c : Calls) (v : Nat) (s : State), c.returns fn v = true →
      (∀ e ∈ (run a c s).events, e.fn = fn → ∀ r, e.act = .dlsym r → r = v) ∧
      ((run a c s).state.original_fn_ptr fn = s.original_fn_ptr fn ∨
       (run a c s).state.original_fn_ptr fn = v)) ∧
    (∀ (d : Decision) (inDA inDlsym inPrintf next : Calls) (v : Nat) (s : State),
      inDA.returns fn v = true → inPrintf.returns fn v = true → next.returns fn v = true →
      (s.original_fn_ptr fn = 0 ∨ s.original_fn_ptr fn = v) →
      (stub a fn d v (run a inDA) (run a inDlsym) (run a inPrintf) s).state.original_fn_ptr fn
        = v ∧
      (run a (.call fn d inDA v inDlsym inPrintf next) s).state.original_fn_ptr fn = v) := by
  refine ⟨?_, ?_, ?_, ?_⟩
  · intro r inDlsym inPrintf s
    refine ⟨resolve_phase_cached fn r inDlsym inPrintf s, ?_, ?_, ?_⟩
    · intro hc
      by_cases hr : r = 0
      · subst hr
        rw [resolve_phase_missing fn inDlsym inPrintf s hc]
        exact ⟨_, rfl⟩
      · rw [resolve_phase_found fn r inDlsym inPrintf s hc hr]
        exact ⟨_, rfl⟩
    · intro hc hr
      rw [resolve_phase_found fn r inDlsym inPrintf s hc hr]
      refine ⟨set_ptr_same _ _ _, ?_⟩
      intro g hg
      exact set_ptr_other _ _ _ _ hg
    · intro hc hr
      subst hr
      rw [resolve_phase_missing fn inDlsym inPrintf s hc]
      exact ⟨set_ptr_same _ _ _, rfl⟩
  · intro c s hs
    exact run_keeps a fn c s hs
  · intro c v s hc
    exact ⟨run_agreeing a fn v c hc s, run_stores_same a fn v c hc s⟩
  · intro d inDA inDlsym inPrintf next v s ha hp hn hs
    have h1 := stub_stores a fn v d (run a inDA) (run a inDlsym) (run a inPrintf)
      (run_traced a fn inDA) (run_agreeing a fn v inDA ha)
      (run_traced a fn inPrintf) (run_agreeing a fn v inPrintf hp) s hs
    refine ⟨h1, ?_⟩
    simp only [run]
    rcases run_stores_same a fn v next hn
      (stub a fn d v (run a inDA) (run a inDlsym) (run a inPrintf) s).state with h2 | h2
    · rw [h2, h1]
    · exact h2

theorem resolve_once_idempotent_witness :
    (run .x86 (.single "open" ⟨1, 0, 0, 0⟩ 8192)
        ((State.start 1).set_ptr "open" 4096)).state.original_fn_ptr "open" = 4096 ∧
    (resolve_phase "open" 4096 (run .x64 .done) (run .x64 .done)
        (State.start 1)).state.original_fn_ptr "open" = 4096 ∧
    (run .x64 (.call "open" ⟨1, 0, 0, 0⟩ .done 4096 (.single "open" ⟨1, 0, 0, 0⟩ 4096) .done
        (.single "open" ⟨1, 0, 0, 0⟩ 4096)) (State.start 1)).state.original_fn_ptr "open"
      = 4096 :=
  ⟨((resolve_once_idempotent .x86 "open").2.1 (.single "open" ⟨1, 0, 0, 0⟩ 8192)
      ((State.start 1).set_ptr "open" 4096) (by decide)).1,
   ((resolve_once_idempotent .x64 "open").1 4096 (run .x64 .done) (run .x64 .done)
      (State.start 1)).2.2.1 rfl (by decide) |>.1,
   ((resolve_once_idempotent .x64 "open").2.2.2 ⟨1, 0, 0, 0⟩ .done
      (.single "open" ⟨1, 0, 0, 0⟩ 4096) .done (.single "open" ⟨1, 0, 0, 0⟩ 4096) 4096
      (State.start 1) (by decide) (by decide) (by decide) (Or.inl rfl)).2⟩

/-- C8 (a failed lookup is reported, not hidden). When the cache of the stub
is null at its lookup lines and `dlsym` returns null for the stub's name
(also in the lookups of that name made from inside `printf`), the lookup is
followed in the same dispatch by the `printf` naming the function, the cache
is still null at the `if` chain and after the dispatch, a forward branch
jumps to the null address, and the next dispatch of the stub looks the name
up again. -/
theorem resolution_failure_reported (a : Arch) (fn : String) (d : Decision)
    (inDA inDlsym inPrintf : Calls) (s : State)
    (hnull : (decide_phase a fn d (run a inDA) s).2.state.original_fn_ptr fn = 0)
    (hprintf : inPrintf.returns fn 0 = true) :
    (resolve_phase fn 0 (run a inDlsym) (run a inPrintf)
        (decide_phase a fn d (run a inDA) s).2.state).events
      = (⟨fn, (decide_phase a fn d (run a inDA) s).2.state.no_intercept, .dlsym 0⟩ ::
          (run a inDlsym (decide_phase a fn d (run a inDA) s).2.state).events) ++
        ⟨fn, (run a inDlsym (decide_phase a fn d (run a inDA) s).2.state).state.no_intercept,
          .printf⟩ ::
          (run a inPrintf ((run a inDlsym
            (decide_phase a fn d (run a inDA) s).2.state).state.set_ptr fn 0)).events ∧
    (∀ e ∈ (resolve_phase fn 0 (run a inDlsym) (run a inPrintf)
        (decide_phase a fn d (run a inDA) s).2.state).events,
      e ∈ (stub a fn d 0 (run a inDA) (run a inDlsym) (run a inPrintf) s).events) ∧
    (pre_branch a fn d 0 (run a inDA) (run a inDlsym) (run a inPrintf)
        s).2.state.original_fn_ptr fn = 0 ∧
    (∀ p, outcome a fn d 0 (run a inDA) (run a inDlsym) (run a inPrintf) s = .forward p →
      p = 0 ∧
      ⟨fn, s.no_intercept, .jmp 0⟩
        ∈ (stub a fn d 0 (run a inDA) (run a inDlsym) (run a inPrintf) s).events) ∧
    (stub a fn d 0 (run a inDA) (run a inDlsym) (run a inPrintf) s).state.original_fn_ptr fn
      = 0 ∧
    (∀ (d1 : Decision) (r1 : Nat) (inDA1 inDlsym1 inPrintf1 : Calls),
      ∃ e ∈ (stub a fn d1 r1 (run a inDA1) (run a inDlsym1) (run a inPrintf1)
          (stub a fn d 0 (run a inDA) (run a inDlsym) (run a inPrintf) s).state).events,
        e.fn = fn ∧ ∃ x, e.act = .dlsym x) := by
  have hq := resolve_phase_missing fn (run a inDlsym) (run a inPrintf) _ hnull
  have hz : (resolve_phase fn 0 (run a inDlsym) (run a inPrintf)
      (decide_phase a fn d (run a inDA) s).2.state).state.original_fn_ptr fn = 0 := by
    rw [hq]
    rcases run_stores_same a fn 0 inPrintf hprintf
      ((run a inDlsym (decide_phase a fn d (run a inDA) s).2.state).state.set_ptr fn 0)
      with h | h
    · rw [h]; simp
    · exact h
  have hs : (stub a fn d 0 (run a inDA) (run a inDlsym) (run a inPrintf)
      s).state.original_fn_ptr fn = 0 := by rw [stub_ptr, hz]
  have hpb : (pre_branch a fn d 0 (run a inDA) (run a inDlsym) (run a inPrintf)
      s).2.state.original_fn_ptr fn = 0 := by rw [pre_branch_ptr, hz]
  refine ⟨by rw [hq], ?_, hpb, ?_, hs, ?_⟩
  · intro e he
    rw [stub_events]
    exact List.mem_cons_of_mem _ (List.mem_append_right _ (List.mem_append_left _ he))
  · intro p ho
    obtain ⟨h1, h2⟩ := (forward_target a fn d 0 _ _ _ s p ho)
    rw [hpb] at h1
    subst h1
    refine ⟨rfl, ?_⟩
    rw [h2]
    simp
  · intro d1 r1 inDA1 inDlsym1 inPrintf1
    exact stub_looks_up a fn d1 r1 _ _ _ (run_traced a fn inDA1) _ hs

theorem resolution_failure_reported_witness :
    (stub .x64 "open" ⟨1, 0, 0, 0⟩ 0 (run .x64 .done) (run .x64 .done)
      (run .x64 (.single "write" ⟨1, 0, 0, 0⟩ 8192)) (State.start 1)).state.original_fn_ptr "open"
      = 0 :=
  (resolution_failure_reported .x64 "open" ⟨1, 0, 0, 0⟩ .done .done
    (.single "write" ⟨1, 0, 0, 0⟩ 8192) (State.start 1) (by decide) (by decide)).2.2.2.2.1

/-- C10 (x64 stack balance). The pops of the forward branch are the pushes
of the stub entry in reverse order. When the C code between them leaves the
stack pointer and the 11 pushed words unchanged, whatever it does to the
registers: at the jump of the forward branch each of the 11 saved registers
holds the value it had before the first push, and after the last pop the
stack pointer is back at its value before the first push; on the fail
branch `add $0x58, %rsp` adds the 11 x 8 bytes pushed and gives the same
stack pointer. -/
theorem x64_stack_balanced (m : Machine) (body : Machine → Machine) (hsp : m.rsp < word)
    (hbody : Preserves 11 body (exec_all save_registers m)) :
    save_registers = saved.map .push ∧ restore_registers = saved.reverse.map .pop ∧
    (∀ y ∈ saved, (exec_all forward_exit (body (exec_all save_registers m))).reg y = m.reg y) ∧
    (exec_all restore_registers (body (exec_all save_registers m))).rsp = m.rsp ∧
    0x58 = 8 * save_registers.length ∧
    (exec_all fail_exit (body (exec_all save_registers m))).rsp = m.rsp := by
  have hs : save_registers = saved.map .push := by decide
  have hr : restore_registers = saved.reverse.map .pop := by decide
  have hnd : saved.Nodup := by decide
  have hlen : saved.length + 0 = 11 := by decide
  have hb : Preserves (saved.length + 0) body (exec_all (saved.map .push) m) := by
    rw [hlen, ← hs]; exact hbody
  have hw : 8 * (saved.length + 0) < word := by rw [hlen, word_eq]; norm_num
  obtain ⟨p1, p2⟩ := brackets_spec body saved m 0 hnd hsp hw hb
  have he := brackets_eq body saved m
  rw [← hs, ← hr] at he
  refine ⟨hs, hr, ?_, ?_, by decide, ?_⟩
  · intro y hy
    unfold forward_exit
    rw [exec_all_append, he, exec_all_cons, exec_leave]
    show (if y = Reg.rbp then _ else (brackets saved body m).reg y) = m.reg y
    have hne : y ≠ Reg.rbp := by
      rintro rfl
      revert hy
      decide
    rw [if_neg hne, p2 y hy]
  · rw [he]; exact p1.1
  · unfold fail_exit
    rw [exec_all_cons, exec_add_rsp]
    show wrap ((body (exec_all save_registers m)).rsp + 0x58) = m.rsp
    rw [hbody.1, hs]
    rw [pushes_rsp saved m hsp]
    have hl : saved.length = 11 := by decide
    rw [hl]
    rw [word_eq] at hsp
    simp only [wrap_eq, word_eq]
    omega

theorem x64_stack_balanced_witness :
    (exec_all restore_registers
      ((fun m => (⟨fun _ => 0, m.rsp, m.mem⟩ : Machine))
        (exec_all save_registers ⟨fun _ => 7, 4096, fun _ => 0⟩))).rsp = 4096 ∧
    (exec_all fail_exit
      ((fun m => (⟨fun _ => 0, m.rsp, m.mem⟩ : Machine))
        (exec_all save_registers ⟨fun _ => 7, 4096, fun _ => 0⟩))).rsp = 4096 :=
  have h := x64_stack_balanced ⟨fun _ => 7, 4096, fun _ => 0⟩
    (fun m => ⟨fun _ => 0, m.rsp, m.mem⟩) (by rw [word_eq]; norm_num)
    ⟨rfl, fun _ _ => rfl⟩
  ⟨h.2.2.2.1, h.2.2.2.2.2⟩

end LFI
